import Mathlib

/-!
# Verification of the snake-dqn game simulator and replay buffer

Shallow embedding of `src/snake-dqn/snake_game.js` (class `SnakeGame`,
`getRandomInteger`, `assertPositiveInteger`) and of the DQN example's
bounded replay buffer.

Modelling conventions:
* JavaScript numbers holding board coordinates are modelled by
  `JNum := Option Int`: `some n` is the integer `n`, while `none` stands
  for a non-integer sentinel value (JavaScript `undefined`, or the `NaN`
  produced by arithmetic on `undefined`).  Strict equality `===` between
  two such values is modelled by equality of the options.  (JavaScript
  distinguishes `undefined === undefined`, which is true, from
  `NaN === NaN`, which is false; starting from a state whose cells are
  all integers, a single `step` never compares two sentinel values, so
  the conflation is unobservable in everything proved below.)
* `Math.random()` draws are supplied by an explicit stream
  `σ : Nat → Nat` of oracle values; the `k`-th call of
  `getRandomInteger` in a loop consumes `σ k`.  `getRandomInteger` maps
  the draw into the interval the source's floating-point computation
  can produce.
* Configuration values (the fields of the `args` object) are rational
  numbers, so that `Number.isInteger` is a non-trivial test.
-/

/-- A JavaScript number used as a board coordinate: `some n` is an
integer, `none` the `undefined`/`NaN` sentinel. -/
abbrev JNum := Option Int

/-- A `[y, x]` coordinate pair as stored in `snakeSquares_` /
`fruitSquares_`. -/
abbrev Cell := JNum × JNum

/-- JavaScript subtraction `a - k`: arithmetic on `undefined` yields
`NaN` (the sentinel). -/
def jsub (a : JNum) (k : Int) : JNum := a.map (fun x => x - k)

/-- JavaScript addition `a + k`. -/
def jadd (a : JNum) (k : Int) : JNum := a.map (fun x => x + k)

/-- JavaScript comparison `a < b`: any comparison against the sentinel
(`undefined`/`NaN`) is false. -/
def jlt (a : JNum) (b : Int) : Bool :=
  match a with
  | some x => decide (x < b)
  | none => false

/-- JavaScript comparison `a >= b`: false on the sentinel. -/
def jge (a : JNum) (b : Int) : Bool :=
  match a with
  | some x => decide (b ≤ x)
  | none => false

/-- JavaScript truthiness of the `done` local, which is either a
boolean or still `undefined` (for an unrecognised action). -/
def jsTruthy : Option Bool → Bool
  | none => false
  | some b => b

def ACTION_LEFT : Int := 0
def ACTION_UP : Int := 1
def ACTION_RIGHT : Int := 2
def ACTION_DOWN : Int := 3

def NO_FRUIT_REWARD : Int := 0
def FRUIT_REWARD : Int := 1

def DEFAULT_HEIGHT : ℚ := 16
def DEFAULT_WIDTH : ℚ := 16
def DEFAULT_NUM_FRUITS : ℚ := 1
def DEFAULT_INIT_LEN : ℚ := 4

/-- `getRandomInteger(min, max) = Math.floor((max - min) * Math.random()) + min`
with the call-site draw supplied by `s`.  For `min < max` the result is
an integer in `[min, max)`; for `min = max` it is `min`
(`Math.floor(0) = 0`); for `max < min` the float computation yields a
value in `[max, min]`.  The oracle value `s` selects which value in the
reachable interval is produced. -/
def getRandomInteger (min max : Int) (s : Nat) : Int :=
  if min < max then min + (s % (max - min).toNat)
  else if max < min then min - (s % (min - max + 1).toNat)
  else min

/-- The game state: board configuration plus the snake and fruit square
lists (head of `snakeSquares_` is the snake's head).  The four numeric
configuration fields are stored after validation, hence as naturals. -/
structure SnakeGame where
  height_ : Nat
  width_ : Nat
  numFruits_ : Nat
  initLen_ : Nat
  snakeSquares_ : List Cell
  fruitSquares_ : List Cell
deriving DecidableEq

/-- `yx[0] * this.width_ + yx[1]` — the flattened board index of a
cell; arithmetic on a sentinel coordinate yields the sentinel (`NaN`). -/
def cellIndex (w : Int) (c : Cell) : Option Int :=
  match c with
  | (some y, some x) => some (y * w + x)
  | _ => none

/-- `l.splice(l.indexOf(v), 1)`: when `v` is a number present in `l`
the first occurrence is removed; otherwise `indexOf` yields `-1` and
`splice(-1, 1)` removes the last element (a no-op on an empty array). -/
def spliceOutIndexOf (l : List Int) (v : Option Int) : List Int :=
  match v with
  | some k => if k ∈ l then l.erase k else l.dropLast
  | none => l.dropLast

/-- `l[i]` for a JavaScript array of numbers: `undefined` (the
sentinel) when out of range.  All call sites have `0 ≤ i`. -/
def jsIndex (l : List Int) (i : Int) : Option Int :=
  if i < 0 then none else l[i.toNat]?

/-- The body of the fruit-creation `for` loop of `makeFruits_`: place
`n` fruits, drawing the `k`-th index from the oracle stream `σ`.  A
fruit index read out of range (empty `emptyIndices`) gives a cell with
sentinel (`NaN`) coordinates.  The chosen index is spliced out of
`emptyIndices` only when `rm` holds (`numFruits > 1` in the source,
where `numFruits` is the loop-invariant deficit).  Operands of `/` and
`%` are nonnegative, so they agree with `Math.floor(fi / w)` and the
JavaScript remainder. -/
def makeFruitsLoop (w : Int) (rm : Bool) (σ : Nat → Nat) : Nat → Nat → List Int → List Cell
  | _, 0, _ => []
  | k, n + 1, empties =>
    let r := getRandomInteger 0 empties.length (σ k)
    let fruitIndex := jsIndex empties r
    let cell : Cell :=
      match fruitIndex with
      | some fi => (some (fi / w), some (fi % w))
      | none => (none, none)
    let empties' := if rm then spliceOutIndexOf empties fruitIndex else empties
    cell :: makeFruitsLoop w rm σ (k + 1) n empties'

/-- `SnakeGame.makeFruits_`: top up `fruitSquares_` to `numFruits_`
fruits placed on squares not occupied by the snake.  Returns the new
value of `this.fruitSquares_` (the source mutates the field in place;
the `fruitSquares_ == null` initialisation is handled by the
constructor model, which starts from `[]`). -/
def SnakeGame.makeFruits_ (g : SnakeGame) (σ : Nat → Nat) : List Cell :=
  let numFruits : Int := (g.numFruits_ : Int) - g.fruitSquares_.length
  if numFruits ≤ 0 then g.fruitSquares_
  else
    let w : Int := g.width_
    let emptyIndices : List Int :=
      (List.range g.height_).flatMap
        (fun i => (List.range g.width_).map (fun (j : Nat) => (i : Int) * w + (j : Int)))
    let emptyIndices :=
      g.snakeSquares_.foldl (fun l c => spliceOutIndexOf l (cellIndex w c)) emptyIndices
    g.fruitSquares_ ++ makeFruitsLoop w (decide (1 < numFruits)) σ 0 numFruits.toNat emptyIndices

/-- `SnakeGame.initializeSnake_`: a straight horizontal snake of
`initLen` cells with head `[y, x]`, at a random row `y` and a random
head column `x = getRandomInteger(initLen - 1, width)`. -/
def initializeSnake_ (height width initLen : Nat) (σ : Nat → Nat) : List Cell :=
  let y : Int := getRandomInteger 0 height (σ 0)
  let x : Int := getRandomInteger ((initLen : Int) - 1) width (σ 1)
  ((some y : JNum), (some x : JNum)) ::
    (List.range' 1 (initLen - 1)).map
      (fun (i : Nat) => ((some y : JNum), (some (x - (i : Int)) : JNum)))

/-- The `{reward, done}` object returned by `step`; `done` may be the
`undefined` sentinel (`none`) when the action is unrecognised. -/
structure StepResult where
  reward : Int
  done : Option Bool
deriving DecidableEq

/-- The `done` / `newHeadY` / `newHeadX` locals computed by the
`if`/`else if` chain at the top of `SnakeGame.step`.  All three locals
start out `undefined` and an unrecognised action assigns none of them.
(The source destructures `this.snakeSquares_[0]`, which throws on an
empty snake; that is unreachable from construction, and the model reads
a sentinel head instead.) -/
def SnakeGame.headCalc (g : SnakeGame) (action : Int) : Option Bool × Cell :=
  let headY := (g.snakeSquares_.headD (none, none)).1
  let headX := (g.snakeSquares_.headD (none, none)).2
  if action = ACTION_LEFT then (some (jlt (jsub headX 1) 0), (headY, jsub headX 1))
  else if action = ACTION_UP then (some (jlt (jsub headY 1) 0), (jsub headY 1, headX))
  else if action = ACTION_RIGHT then
    (some (jge (jadd headX 1) (g.width_ : Int)), (headY, jadd headX 1))
  else if action = ACTION_DOWN then
    (some (jge (jadd headY 1) (g.height_ : Int)), (jadd headY 1, headX))
  else (none, (none, none))

/-- The candidate new head cell of `step` for a given action. -/
def SnakeGame.candidate (g : SnakeGame) (action : Int) : Cell :=
  (g.headCalc action).2

/-- `SnakeGame.step`: returns the `{reward, done}` result and the
post-call game state.  The body-collision loop ranges over indices
`1 ≤ i < snakeSquares_.length` and may overwrite `done` with `true`;
`if (done)` then tests JavaScript truthiness (false for `undefined`).
A legal move pops the tail, unshifts the candidate head, and on eating
a fruit splices out the first matching fruit and calls `makeFruits_`. -/
def SnakeGame.step (g : SnakeGame) (action : Int) (σ : Nat → Nat) : StepResult × SnakeGame :=
  let hc := g.headCalc action
  let nh := hc.2
  let bodyHit := (g.snakeSquares_.drop 1).any (fun c => c.1 == nh.1 && c.2 == nh.2)
  let done : Option Bool := if bodyHit then some true else hc.1
  if jsTruthy done then ({ reward := 0, done := done }, g)
  else
    let snake' := nh :: g.snakeSquares_.dropLast
    match g.fruitSquares_.findIdx? (fun c => c.1 == nh.1 && c.2 == nh.2) with
    | some i =>
      let g1 : SnakeGame :=
        { g with snakeSquares_ := snake', fruitSquares_ := g.fruitSquares_.eraseIdx i }
      ({ reward := FRUIT_REWARD, done := done },
        { g1 with fruitSquares_ := g1.makeFruits_ σ })
    | none =>
      ({ reward := NO_FRUIT_REWARD, done := done }, { g with snakeSquares_ := snake' })

/-- The caller-supplied `args` object: each configuration field either
present (a JavaScript number, modelled as a rational) or
absent/`null`. -/
structure GameArgs where
  height : Option ℚ
  width : Option ℚ
  numFruits : Option ℚ
  initLen : Option ℚ
deriving DecidableEq

/-- The content of the four configuration fields of the `args` object
after the constructor's default-filling writes. -/
structure ResolvedArgs where
  height : ℚ
  width : ℚ
  numFruits : ℚ
  initLen : ℚ
deriving DecidableEq

/-- The constructor's default-filling prologue: a `null` `args` is
replaced by a fresh `{}`, then every `== null` (absent) field is
written with its default.  The result is the content of the (non-null)
caller-supplied object after the call. -/
def resolveArgs (args : Option GameArgs) : ResolvedArgs :=
  let a := args.getD ⟨none, none, none, none⟩
  { height := a.height.getD DEFAULT_HEIGHT
    width := a.width.getD DEFAULT_WIDTH
    numFruits := a.numFruits.getD DEFAULT_NUM_FRUITS
    initLen := a.initLen.getD DEFAULT_INIT_LEN }

/-- `assertPositiveInteger(x, name)`: throws unless `x` is an integer
and `x > 0`. -/
def assertPositiveInteger (x : ℚ) (name : String) : Except String Unit :=
  if ¬ x.isInt then
    Except.error ("Expected " ++ name ++ " to be an integer, but it is not")
  else if ¬ (0 < x) then
    Except.error ("Expected " ++ name ++ " to be a positive number, but it is not")
  else Except.ok ()

/-- The `SnakeGame` constructor.  First component: the content of the
caller's `args` object after the call (the default-filling writes
happen before validation, hence also on a failed construction).  Second
component: the constructed game, or the first validation error.  The
two oracle streams feed `initializeSnake_` and the construction-time
`makeFruits_` call (which starts from `fruitSquares_ = []`, the effect
of the `== null` initialisation). -/
def SnakeGame.construct (args : Option GameArgs) (σ₁ σ₂ : Nat → Nat) :
    ResolvedArgs × Except String SnakeGame :=
  let a := resolveArgs args
  (a,
    match assertPositiveInteger a.height "height" with
    | Except.error e => Except.error e
    | Except.ok _ =>
      match assertPositiveInteger a.width "width" with
      | Except.error e => Except.error e
      | Except.ok _ =>
        match assertPositiveInteger a.numFruits "numFruits" with
        | Except.error e => Except.error e
        | Except.ok _ =>
          match assertPositiveInteger a.initLen "initLen" with
          | Except.error e => Except.error e
          | Except.ok _ =>
            let h := a.height.num.toNat
            let w := a.width.num.toNat
            let nf := a.numFruits.num.toNat
            let il := a.initLen.num.toNat
            let g0 : SnakeGame :=
              { height_ := h, width_ := w, numFruits_ := nf, initLen_ := il
                snakeSquares_ := initializeSnake_ h w il σ₁, fruitSquares_ := [] }
            Except.ok { g0 with fruitSquares_ := g0.makeFruits_ σ₂ })

/-- One `buffer.set(v, y, x, ch)` write of `getStateTensor`: later
writes shadow earlier ones.  (Index validation by the tensor library is
elided; every state read below has in-bounds integer cells.) -/
def bufSet (b : Nat → Nat → Nat → Int) (v : Int) (c : Cell) (ch : Nat) :
    Nat → Nat → Nat → Int :=
  fun y x k => if c = ((some (y : Int) : JNum), (some (x : Int) : JNum)) ∧ k = ch then v else b y x k

/-- `SnakeGame.getStateTensor`: the `[height, width, 2]` buffer as a
function of `(y, x, channel)`.  Channel 0 marks the snake (2 = head,
1 = body), channel 1 marks the fruits; the buffer starts zeroed. -/
def SnakeGame.getStateTensor (g : SnakeGame) : Nat → Nat → Nat → Int :=
  let buf0 : Nat → Nat → Nat → Int := fun _ _ _ => 0
  let buf1 := g.snakeSquares_.enum.foldl
    (fun b ic => bufSet b (if ic.1 = 0 then 2 else 1) ic.2 0) buf0
  g.fruitSquares_.enum.foldl (fun b ic => bufSet b 1 ic.2 1) buf1

/-- Modelled from the spec: the DQN example's `replay_memory.js` is not
under `src/` (only its jasmine test is present); the spec describes a
fixed-capacity FIFO buffer — `append` grows the buffer until `maxLen`
is reached and from then on evicts the oldest resident item — with
uniform with-replacement sampling by the random oracle. -/
structure ReplayMemory (T : Type) where
  maxLen : Nat
  buffer : List T
deriving DecidableEq

/-- `new ReplayMemory(maxLen)`: empty buffer. -/
def ReplayMemory.new (T : Type) (maxLen : Nat) : ReplayMemory T := ⟨maxLen, []⟩

/-- Modelled from the spec: `append(item)` — below capacity the item is
appended; at capacity the oldest item (the buffer front) is evicted
first. -/
def ReplayMemory.append {T : Type} (m : ReplayMemory T) (item : T) : ReplayMemory T :=
  if m.buffer.length < m.maxLen then { m with buffer := m.buffer ++ [item] }
  else { m with buffer := m.buffer.tail ++ [item] }

/-- The `length` accessor: the resident count. -/
def ReplayMemory.length {T : Type} (m : ReplayMemory T) : Nat := m.buffer.length

/-- Modelled from the spec: `sample(batchSize)` — `batchSize`
independent uniform draws with replacement from the buffer, the `k`-th
draw chosen by the oracle value `σ k`. -/
def ReplayMemory.sample {T : Type} [Inhabited T] (m : ReplayMemory T) (batchSize : Nat)
    (σ : Nat → Nat) : List T :=
  (List.range batchSize).map (fun k => m.buffer.getD (σ k % m.buffer.length) default)

/-! ## Specification-side predicates -/

/-- Embed an integer-coordinate cell list into the JavaScript cell
representation. -/
def ints (l : List (Int × Int)) : List Cell :=
  l.map (fun p => ((some p.1 : JNum), (some p.2 : JNum)))

/-- A cell with integer coordinates inside `[0, height) × [0, width)`. -/
def CellInBounds (g : SnakeGame) (c : Cell) : Prop :=
  ∃ y x : Int, c = (some y, some x) ∧
    0 ≤ y ∧ y < (g.height_ : Int) ∧ 0 ≤ x ∧ x < (g.width_ : Int)

/-- Boolean in-bounds check for a cell on an `h × w` board. -/
def cellInBoundsB (h w : Nat) (c : Cell) : Bool :=
  match c with
  | (some y, some x) => decide (0 ≤ y) && decide (y < (h : Int)) &&
      decide (0 ≤ x) && decide (x < (w : Int))
  | _ => false

/-- All snake cells have integer coordinates on the board. -/
def snakeCellsInBounds (g : SnakeGame) : Bool :=
  g.snakeSquares_.all (cellInBoundsB g.height_ g.width_)

/-- An integer coordinate pair inside the board. -/
def PairInBounds (h w : Nat) (p : Int × Int) : Prop :=
  0 ≤ p.1 ∧ p.1 < (h : Int) ∧ 0 ≤ p.2 ∧ p.2 < (w : Int)

/-- The states reachable from a successful construction by legal
(non-terminal, recognised-action) steps. -/
inductive Reachable : SnakeGame → Prop
  | init (args : Option GameArgs) (σ₁ σ₂ : Nat → Nat) (g : SnakeGame) :
      (SnakeGame.construct args σ₁ σ₂).2 = Except.ok g → Reachable g
  | step (g : SnakeGame) (a : Int) (σ : Nat → Nat) :
      Reachable g → (a = 0 ∨ a = 1 ∨ a = 2 ∨ a = 3) →
      (g.step a σ).1.done = some false → Reachable (g.step a σ).2

/-- `Number.isInteger(x) && x > 0`: the property `assertPositiveInteger`
validates. -/
def isPosInt (q : ℚ) : Bool := q.isInt && decide (0 < q)

/-- The all-zeros oracle stream. -/
def oracle0 : Nat → Nat := fun _ => 0

/-- The all-ones oracle stream. -/
def oracle1 : Nat → Nat := fun _ => 1

/-- A 4×4 board whose snake occupies `(1,1), (1,0)` with one fruit at
`(0,0)` — a concrete state for exercising `step` on an unrecognised
action. -/
def invalidActionGame : SnakeGame :=
  ⟨4, 4, 1, 2, ints [(1, 1), (1, 0)], ints [(0, 0)]⟩

/-- A 3×3 board with a length-1 snake at `(0,0)` and one fruit at
`(0,1)` — a concrete state in which a `RIGHT` step eats the fruit. -/
def eatRandomGame : SnakeGame :=
  ⟨3, 3, 1, 1, ints [(0, 0)], ints [(0, 1)]⟩

instance (g : SnakeGame) (c : Cell) : Decidable (CellInBounds g c) :=
  decidable_of_iff (cellInBoundsB g.height_ g.width_ c = true) (by
    unfold CellInBounds cellInBoundsB
    match c with
    | (some y, some x) =>
      simp only [Prod.mk.injEq, Option.some.inj, decide_eq_true_eq, Bool.and_eq_true,
        Option.some.injEq]
      constructor
      · rintro ⟨⟨⟨h1, h2⟩, h3⟩, h4⟩
        exact ⟨y, x, ⟨rfl, rfl⟩, h1, h2, h3, h4⟩
      · rintro ⟨y', x', ⟨rfl, rfl⟩, h1, h2, h3, h4⟩
        exact ⟨⟨⟨h1, h2⟩, h3⟩, h4⟩
    | (some y, none) => simp
    | (none, some x) => simp
    | (none, none) => simp)

instance (h w : Nat) (p : Int × Int) : Decidable (PairInBounds h w p) :=
  decidable_of_iff (0 ≤ p.1 ∧ p.1 < (h : Int) ∧ 0 ≤ p.2 ∧ p.2 < (w : Int)) Iff.rfl

/-- The flattened board index `row * width + col` of an
integer-coordinate pair. -/
def pairIndex (w : Int) (p : Int × Int) : Int := p.1 * w + p.2

deriving instance DecidableEq for Except

/-! ## Basic lemmas about the JavaScript-value helpers -/

lemma jsTruthy_eq_true_iff {d : Option Bool} : jsTruthy d = true ↔ d = some true := by
  cases d with
  | none => simp [jsTruthy]
  | some b => cases b <;> simp [jsTruthy]

lemma anyMatch_eq_true_iff (l : List Cell) (nh : Cell) :
    (l.any (fun c => c.1 == nh.1 && c.2 == nh.2)) = true ↔ nh ∈ l := by
  rw [List.any_eq_true]
  constructor
  · rintro ⟨c, hc, hp⟩
    simp only [Bool.and_eq_true, beq_iff_eq] at hp
    rwa [show nh = c from Prod.ext hp.1.symm hp.2.symm]
  · intro h
    exact ⟨nh, h, by simp⟩

lemma mem_ints {p : Int × Int} {l : List (Int × Int)} :
    ((some p.1 : JNum), (some p.2 : JNum)) ∈ ints l ↔ p ∈ l := by
  unfold ints
  rw [List.mem_map]
  constructor
  · rintro ⟨q, hq, he⟩
    have h1 : q.1 = p.1 := Option.some.inj (congrArg Prod.fst he)
    have h2 : q.2 = p.2 := Option.some.inj (congrArg Prod.snd he)
    have hqp : q = p := Prod.ext h1 h2
    exact hqp ▸ hq
  · intro h
    exact ⟨p, h, rfl⟩

lemma ints_nodup {l : List (Int × Int)} (h : l.Nodup) : (ints l).Nodup :=
  h.map (fun p q hpq =>
    Prod.ext (Option.some.inj (congrArg Prod.fst hpq))
      (Option.some.inj (congrArg Prod.snd hpq)))

lemma mem_of_mem_ints {c : Cell} {l : List (Int × Int)} (h : c ∈ ints l) :
    ∃ p ∈ l, c = ((some p.1 : JNum), some p.2) := by
  rcases List.mem_map.mp h with ⟨q, hq, he⟩
  exact ⟨q, hq, he.symm⟩

/-! ## Computation lemmas for `headCalc` and `step` -/

lemma headCalc_left (g : SnakeGame) (y x : Int) (t : List Cell)
    (hs : g.snakeSquares_ = (some y, some x) :: t) :
    g.headCalc 0 = (some (decide (x - 1 < 0)), (some y, some (x - 1))) := by
  unfold SnakeGame.headCalc
  simp [hs, jsub, jlt, ACTION_LEFT]

lemma headCalc_up (g : SnakeGame) (y x : Int) (t : List Cell)
    (hs : g.snakeSquares_ = (some y, some x) :: t) :
    g.headCalc 1 = (some (decide (y - 1 < 0)), (some (y - 1), some x)) := by
  unfold SnakeGame.headCalc
  norm_num [hs, jsub, jlt, ACTION_LEFT, ACTION_UP]

lemma headCalc_right (g : SnakeGame) (y x : Int) (t : List Cell)
    (hs : g.snakeSquares_ = (some y, some x) :: t) :
    g.headCalc 2 =
      (some (decide ((g.width_ : Int) ≤ x + 1)), (some y, some (x + 1))) := by
  unfold SnakeGame.headCalc
  norm_num [hs, jadd, jge, ACTION_LEFT, ACTION_UP, ACTION_RIGHT]

lemma headCalc_down (g : SnakeGame) (y x : Int) (t : List Cell)
    (hs : g.snakeSquares_ = (some y, some x) :: t) :
    g.headCalc 3 =
      (some (decide ((g.height_ : Int) ≤ y + 1)), (some (y + 1), some x)) := by
  unfold SnakeGame.headCalc
  norm_num [hs, jadd, jge, ACTION_LEFT, ACTION_UP, ACTION_RIGHT, ACTION_DOWN]

lemma headCalc_invalid (g : SnakeGame) (a : Int) (ha : ¬(a = 0 ∨ a = 1 ∨ a = 2 ∨ a = 3)) :
    g.headCalc a = (none, (none, none)) := by
  unfold SnakeGame.headCalc
  push_neg at ha
  simp [ACTION_LEFT, ACTION_UP, ACTION_RIGHT, ACTION_DOWN, ha.1, ha.2.1, ha.2.2.1, ha.2.2.2]

lemma step_of_terminal (g : SnakeGame) (a : Int) (σ : Nat → Nat)
    (hdone : g.candidate a ∈ g.snakeSquares_.drop 1 ∨ (g.headCalc a).1 = some true) :
    g.step a σ = ({ reward := 0, done := some true }, g) := by
  have hd : (if ((g.snakeSquares_.drop 1).any
        (fun c => c.1 == (g.headCalc a).2.1 && c.2 == (g.headCalc a).2.2)) then
        (some true : Option Bool) else (g.headCalc a).1) = some true := by
    rcases hdone with hb | hf
    · rw [SnakeGame.candidate] at hb
      rw [(anyMatch_eq_true_iff _ _).mpr hb]
      rfl
    · split
      · rfl
      · exact hf
  simp only [SnakeGame.step, hd, jsTruthy, if_true]

lemma step_proceeds (g : SnakeGame) (a : Int) (σ : Nat → Nat)
    (hb : g.candidate a ∉ g.snakeSquares_.drop 1)
    (hflag : jsTruthy (g.headCalc a).1 = false) :
    g.step a σ =
      (match g.fruitSquares_.findIdx?
          (fun c => c.1 == (g.candidate a).1 && c.2 == (g.candidate a).2) with
       | some i =>
         ({ reward := FRUIT_REWARD, done := (g.headCalc a).1 },
           { g with snakeSquares_ := g.candidate a :: g.snakeSquares_.dropLast,
                    fruitSquares_ := SnakeGame.makeFruits_
                      { g with snakeSquares_ := g.candidate a :: g.snakeSquares_.dropLast,
                               fruitSquares_ := g.fruitSquares_.eraseIdx i } σ })
       | none =>
         ({ reward := NO_FRUIT_REWARD, done := (g.headCalc a).1 },
           { g with snakeSquares_ := g.candidate a :: g.snakeSquares_.dropLast })) := by
  have hany : ((g.snakeSquares_.drop 1).any
      (fun c => c.1 == (g.headCalc a).2.1 && c.2 == (g.headCalc a).2.2)) = false := by
    rw [← Bool.not_eq_true, anyMatch_eq_true_iff]
    exact hb
  simp only [SnakeGame.step, SnakeGame.candidate, hany, Bool.false_eq_true, if_false, hflag]

lemma step_preserves_config (g : SnakeGame) (a : Int) (σ : Nat → Nat) :
    (g.step a σ).2.height_ = g.height_ ∧ (g.step a σ).2.width_ = g.width_ ∧
    (g.step a σ).2.numFruits_ = g.numFruits_ ∧ (g.step a σ).2.initLen_ = g.initLen_ := by
  refine ⟨?_, ?_, ?_, ?_⟩ <;> (simp only [SnakeGame.step]; repeat' split) <;> rfl

lemma step_done_eq (g : SnakeGame) (a : Int) (σ : Nat → Nat) :
    (g.step a σ).1.done = (if ((g.snakeSquares_.drop 1).any
      (fun c => c.1 == (g.headCalc a).2.1 && c.2 == (g.headCalc a).2.2)) then
      (some true : Option Bool) else (g.headCalc a).1) := by
  simp only [SnakeGame.step]
  repeat' split
  all_goals rfl

lemma step_done_false_elim (g : SnakeGame) (a : Int) (σ : Nat → Nat)
    (hd : (g.step a σ).1.done = some false) :
    (g.headCalc a).1 = some false ∧ g.candidate a ∉ g.snakeSquares_.drop 1 := by
  rw [step_done_eq] at hd
  by_cases hany : ((g.snakeSquares_.drop 1).any
      (fun c => c.1 == (g.headCalc a).2.1 && c.2 == (g.headCalc a).2.2)) = true
  · rw [if_pos hany] at hd
    exact absurd (Option.some.inj hd) (by simp)
  · simp only [Bool.not_eq_true] at hany
    rw [hany] at hd
    simp only [Bool.false_eq_true, if_false] at hd
    refine ⟨hd, fun hmem => ?_⟩
    rw [SnakeGame.candidate] at hmem
    rw [(anyMatch_eq_true_iff _ _).mpr hmem] at hany
    exact absurd hany (by simp)

lemma ints_drop (l : List (Int × Int)) (n : Nat) : (ints l).drop n = ints (l.drop n) :=
  (List.map_drop _ _ _).symm

lemma ints_dropLast (l : List (Int × Int)) : (ints l).dropLast = ints l.dropLast :=
  (List.map_dropLast _ _).symm

/-- C10: the SnakeGame constructor mutates the caller-supplied
configuration object — every `null`/absent field among `height`,
`width`, `numFruits`, `initLen` is written with its default (16, 16, 1,
4 respectively), and present fields are preserved, so after construction
the caller's object carries the defaults.  The first component of
`construct` is the content of the caller's object after the call. -/
theorem construct_fills_defaults (a : GameArgs) (σ₁ σ₂ : Nat → Nat) :
    (SnakeGame.construct (some a) σ₁ σ₂).1 =
      { height := a.height.getD 16, width := a.width.getD 16,
        numFruits := a.numFruits.getD 1, initLen := a.initLen.getD 4 } := rfl

/-- C9 (amended): the `{reward, done}` result of `step` is a function of
the game state and the action alone, and the post-call state is too
whenever the candidate head cell matches no fruit; when a fruit is eaten
the respawn location additionally depends on the random draw, so the
full transition is not deterministic (see the counterexample). -/
theorem step_result_deterministic (g : SnakeGame) (a : Int) (σ₁ σ₂ : Nat → Nat) :
    (g.step a σ₁).1 = (g.step a σ₂).1 ∧
    (g.fruitSquares_.findIdx?
        (fun c => c.1 == (g.candidate a).1 && c.2 == (g.candidate a).2) = none →
      (g.step a σ₁).2 = (g.step a σ₂).2) := by
  constructor
  · simp only [SnakeGame.step]
    repeat' split
    all_goals rfl
  · intro hf
    simp only [SnakeGame.candidate] at hf
    simp only [SnakeGame.step, hf]
    repeat' split
    all_goals rfl

/-- C9 witness: the amended determinism applied at a concrete state with
no fruit at the candidate cell. -/
theorem step_result_deterministic_witness :
    (invalidActionGame.step 0 oracle0).1 = (invalidActionGame.step 0 oracle1).1 ∧
    (invalidActionGame.step 0 oracle0).2 = (invalidActionGame.step 0 oracle1).2 := by
  have h := step_result_deterministic invalidActionGame 0 oracle0 oracle1
  exact ⟨h.1, h.2 (by decide)⟩

/-- C9 counterexample: from the state `eatRandomGame` the same legal
RIGHT action, run twice, returns `done: false` both times yet produces
different post-call states under different random draws (the eaten
fruit respawns at an oracle-chosen empty cell), so the claim that equal
states and actions always give equal post-call states is false. -/
theorem step_not_deterministic :
    (eatRandomGame.step 2 oracle0).1.done = some false ∧
    (eatRandomGame.step 2 oracle1).1.done = some false ∧
    (eatRandomGame.step 2 oracle0).2 ≠ (eatRandomGame.step 2 oracle1).2 := by
  decide

/-- C8 (amended): calling `step` with an argument outside {0, 1, 2, 3}
DOES change the state: `done` stays `undefined` (falsy), so the move
code runs, pops the tail and unshifts a head cell with `undefined`
coordinates.  The fruit squares are unchanged and the result is
`{reward: 0, done: undefined}`. -/
theorem step_invalid_action (h w nf il : Nat) (s f : List (Int × Int)) (a : Int)
    (σ : Nat → Nat) (ha : ¬(a = 0 ∨ a = 1 ∨ a = 2 ∨ a = 3)) :
    (SnakeGame.mk h w nf il (ints s) (ints f)).step a σ =
      ({ reward := 0, done := none },
        { height_ := h, width_ := w, numFruits_ := nf, initLen_ := il,
          snakeSquares_ := ((none : JNum), (none : JNum)) :: (ints s).dropLast,
          fruitSquares_ := ints f }) := by
  have hc : (SnakeGame.mk h w nf il (ints s) (ints f)).headCalc a = (none, (none, none)) :=
    headCalc_invalid _ a ha
  have hcand : (SnakeGame.mk h w nf il (ints s) (ints f)).candidate a = (none, none) := by
    rw [SnakeGame.candidate, hc]
  have hb : (SnakeGame.mk h w nf il (ints s) (ints f)).candidate a ∉
      (SnakeGame.mk h w nf il (ints s) (ints f)).snakeSquares_.drop 1 := by
    rw [hcand]
    show ((none : JNum), (none : JNum)) ∉ (ints s).drop 1
    rw [ints_drop]
    intro hmem
    rcases mem_of_mem_ints hmem with ⟨p, _, heq⟩
    exact absurd heq (by simp)
  have hstep := step_proceeds (SnakeGame.mk h w nf il (ints s) (ints f)) a σ hb
    (by rw [hc]; rfl)
  rw [hstep]
  have hfind : (ints f).findIdx?
      (fun c : Cell => c.1 == (none : JNum) && c.2 == (none : JNum)) = none := by
    rw [List.findIdx?_eq_none_iff]
    intro c hcmem
    rcases mem_of_mem_ints hcmem with ⟨p, _, heq⟩
    subst heq
    rfl
  simp only [hcand, hc]
  simp only [hfind]
  rfl

/-- C8 witness: the amended behaviour applied at the concrete state
`invalidActionGame` with the invalid action symbol 5. -/
theorem step_invalid_action_witness :
    ¬((5 : Int) = 0 ∨ (5 : Int) = 1 ∨ (5 : Int) = 2 ∨ (5 : Int) = 3) ∧
    (SnakeGame.mk 4 4 1 2 (ints [(1, 1), (1, 0)]) (ints [(0, 0)])).step 5 oracle0 =
      ({ reward := 0, done := none },
        { height_ := 4, width_ := 4, numFruits_ := 1, initLen_ := 2,
          snakeSquares_ := ((none : JNum), (none : JNum)) ::
            (ints [(1, 1), (1, 0)]).dropLast,
          fruitSquares_ := ints [(0, 0)] }) :=
  ⟨by decide, step_invalid_action 4 4 1 2 [(1, 1), (1, 0)] [(0, 0)] 5 oracle0 (by decide)⟩

/-- C8 counterexample: on the concrete state `invalidActionGame`, `step`
with the invalid action symbol 5 modifies the snake squares — the claim
that an invalid action causes no state change is false. -/
theorem step_invalid_action_mutates :
    (invalidActionGame.step 5 oracle0).2.snakeSquares_ ≠ invalidActionGame.snakeSquares_ := by
  decide

/-! ## Constructor validation -/

lemma assertPositiveInteger_ok_iff (x : ℚ) (name : String) :
    assertPositiveInteger x name = Except.ok () ↔ isPosInt x = true := by
  unfold assertPositiveInteger isPosInt
  by_cases h1 : x.isInt <;> by_cases h2 : (0 : ℚ) < x <;> simp [h1, h2]

lemma assertPositiveInteger_error (x : ℚ) (name : String) (h : isPosInt x = false) :
    ∃ e, assertPositiveInteger x name = Except.error e := by
  unfold assertPositiveInteger
  unfold isPosInt at h
  by_cases h1 : x.isInt <;> by_cases h2 : (0 : ℚ) < x <;> simp_all

lemma construct_ok_iff (args : Option GameArgs) (σ₁ σ₂ : Nat → Nat) :
    (∃ g, (SnakeGame.construct args σ₁ σ₂).2 = Except.ok g) ↔
      (isPosInt (resolveArgs args).height = true ∧
       isPosInt (resolveArgs args).width = true ∧
       isPosInt (resolveArgs args).numFruits = true ∧
       isPosInt (resolveArgs args).initLen = true) := by
  by_cases p1 : isPosInt (resolveArgs args).height = true
  case neg =>
    rcases assertPositiveInteger_error _ "height" (by simpa using p1) with ⟨e, he⟩
    simp [SnakeGame.construct, he, p1]
  all_goals
    have h1 := (assertPositiveInteger_ok_iff (resolveArgs args).height "height").mpr p1
    by_cases p2 : isPosInt (resolveArgs args).width = true
  case neg =>
    rcases assertPositiveInteger_error _ "width" (by simpa using p2) with ⟨e, he⟩
    simp [SnakeGame.construct, h1, he, p2]
  all_goals
    have h2 := (assertPositiveInteger_ok_iff (resolveArgs args).width "width").mpr p2
    by_cases p3 : isPosInt (resolveArgs args).numFruits = true
  case neg =>
    rcases assertPositiveInteger_error _ "numFruits" (by simpa using p3) with ⟨e, he⟩
    simp [SnakeGame.construct, h1, h2, he, p3]
  all_goals
    have h3 := (assertPositiveInteger_ok_iff (resolveArgs args).numFruits "numFruits").mpr p3
    by_cases p4 : isPosInt (resolveArgs args).initLen = true
  case neg =>
    rcases assertPositiveInteger_error _ "initLen" (by simpa using p4) with ⟨e, he⟩
    simp [SnakeGame.construct, h1, h2, h3, he, p4]
  have h4 := (assertPositiveInteger_ok_iff (resolveArgs args).initLen "initLen").mpr p4
  simp [SnakeGame.construct, h1, h2, h3, h4, p1, p2, p3, p4]

/-- C6: the SnakeGame constructor substitutes the defaults 16, 16, 1, 4
for omitted `height`, `width`, `numFruits`, `initLen`, and it produces a
playable instance iff each of the four resulting values is a positive
integer — otherwise it throws and no instance is produced. -/
theorem construct_defaults_and_validation (args : Option GameArgs) (σ₁ σ₂ : Nat → Nat) :
    (SnakeGame.construct args σ₁ σ₂).1 =
      { height := (args.getD ⟨none, none, none, none⟩).height.getD 16,
        width := (args.getD ⟨none, none, none, none⟩).width.getD 16,
        numFruits := (args.getD ⟨none, none, none, none⟩).numFruits.getD 1,
        initLen := (args.getD ⟨none, none, none, none⟩).initLen.getD 4 } ∧
    ((∃ g, (SnakeGame.construct args σ₁ σ₂).2 = Except.ok g) ↔
      (isPosInt (SnakeGame.construct args σ₁ σ₂).1.height = true ∧
       isPosInt (SnakeGame.construct args σ₁ σ₂).1.width = true ∧
       isPosInt (SnakeGame.construct args σ₁ σ₂).1.numFruits = true ∧
       isPosInt (SnakeGame.construct args σ₁ σ₂).1.initLen = true)) :=
  ⟨rfl, construct_ok_iff args σ₁ σ₂⟩

/-! ## Replay memory -/

lemma ReplayMemory.append_maxLen {T : Type} (m : ReplayMemory T) (x : T) :
    (m.append x).maxLen = m.maxLen := by
  unfold ReplayMemory.append
  split <;> rfl

lemma ReplayMemory.append_length_le {T : Type} (m : ReplayMemory T) (x : T)
    (hpos : 0 < m.maxLen) (h : m.buffer.length ≤ m.maxLen) :
    (m.append x).buffer.length ≤ m.maxLen := by
  unfold ReplayMemory.append
  split
  · rename_i hlt
    simp only [List.length_append, List.length_singleton]
    omega
  · rename_i hge
    simp only [List.length_append, List.length_singleton, List.length_tail]
    omega

lemma ReplayMemory.foldl_append_maxLen {T : Type} (items : List T) :
    ∀ m : ReplayMemory T, (items.foldl ReplayMemory.append m).maxLen = m.maxLen := by
  induction items with
  | nil => intro m; rfl
  | cons a t ih =>
    intro m
    rw [List.foldl_cons, ih (m.append a), ReplayMemory.append_maxLen]

lemma ReplayMemory.foldl_append_length_le {T : Type} (items : List T) :
    ∀ m : ReplayMemory T, 0 < m.maxLen → m.buffer.length ≤ m.maxLen →
      (items.foldl ReplayMemory.append m).buffer.length ≤ m.maxLen := by
  induction items with
  | nil => intro m _ h; simpa using h
  | cons a t ih =>
    intro m hpos h
    have h1 := ReplayMemory.append_length_le m a hpos h
    have h2 := ReplayMemory.append_maxLen m a
    rw [List.foldl_cons, show m.maxLen = (m.append a).maxLen from h2.symm]
    exact ih (m.append a) (h2 ▸ hpos) (h2 ▸ h1)

/-- C5 (spec-modelled; `replay_memory.js` is not under `src/`): the
replay buffer's length never exceeds its capacity under any sequence of
appends from construction; an append on a full buffer evicts exactly
the oldest resident item and keeps the length at capacity; and in the
concrete scenario `ReplayMemory(3)` with `append(10); append(20);
append(30); append(40)`, the length is 3 and every `sample(4)` call
returns 4 values all drawn from {20, 30, 40} — the evicted 10 never
appears. -/
theorem replay_memory_bounded (T : Type) (maxLen : Nat) (items : List T)
    (x : T) (m : ReplayMemory T) (σ : Nat → Nat)
    (hpos : 0 < maxLen) (hm : m.maxLen = maxLen) (hfull : m.buffer.length = maxLen) :
    (items.foldl ReplayMemory.append (ReplayMemory.new T maxLen)).length ≤ maxLen ∧
    ((m.append x).length = maxLen ∧ (m.append x).buffer = m.buffer.tail ++ [x]) ∧
    ((([10, 20, 30, 40] : List Nat).foldl ReplayMemory.append (ReplayMemory.new Nat 3)).length = 3 ∧
     ∀ σ' : Nat → Nat,
       ((([10, 20, 30, 40] : List Nat).foldl ReplayMemory.append
           (ReplayMemory.new Nat 3)).sample 4 σ').length = 4 ∧
       ∀ v ∈ (([10, 20, 30, 40] : List Nat).foldl ReplayMemory.append
           (ReplayMemory.new Nat 3)).sample 4 σ',
         v = 20 ∨ v = 30 ∨ v = 40) := by
  refine ⟨?_, ⟨?_, ?_⟩, ?_, ?_⟩
  · exact ReplayMemory.foldl_append_length_le items (ReplayMemory.new T maxLen)
      (by simpa [ReplayMemory.new] using hpos) (by simp [ReplayMemory.new])
  · unfold ReplayMemory.length ReplayMemory.append
    rw [if_neg (by omega)]
    simp only [List.length_append, List.length_singleton, List.length_tail]
    omega
  · unfold ReplayMemory.append
    rw [if_neg (by omega)]
  · rfl
  · intro σ'
    constructor
    · simp [ReplayMemory.sample]
    · intro v hv
      unfold ReplayMemory.sample at hv
      rcases List.mem_map.mp hv with ⟨k, _, hk⟩
      have hbuf : (([10, 20, 30, 40] : List Nat).foldl ReplayMemory.append
          (ReplayMemory.new Nat 3)).buffer = [20, 30, 40] := rfl
      rw [hbuf] at hk
      have hlen : ([20, 30, 40] : List Nat).length = 3 := rfl
      rw [hlen] at hk
      have h3 : σ' k % 3 = 0 ∨ σ' k % 3 = 1 ∨ σ' k % 3 = 2 := by omega
      rcases h3 with h | h | h <;> rw [h] at hk
      · exact Or.inl hk.symm
      · exact Or.inr (Or.inl hk.symm)
      · exact Or.inr (Or.inr hk.symm)

/-- C5 witness: the bounded-buffer properties applied at capacity 3 with
a concrete full buffer. -/
theorem replay_memory_bounded_witness :
    0 < 3 ∧
    (([1, 2] : List Nat).foldl ReplayMemory.append (ReplayMemory.new Nat 3)).length ≤ 3 ∧
    (((⟨3, [7, 8, 9]⟩ : ReplayMemory Nat).append 99).length = 3 ∧
      ((⟨3, [7, 8, 9]⟩ : ReplayMemory Nat).append 99).buffer =
        ([7, 8, 9] : List Nat).tail ++ [99]) ∧
    ((([10, 20, 30, 40] : List Nat).foldl ReplayMemory.append (ReplayMemory.new Nat 3)).length = 3 ∧
     ∀ σ' : Nat → Nat,
       ((([10, 20, 30, 40] : List Nat).foldl ReplayMemory.append
           (ReplayMemory.new Nat 3)).sample 4 σ').length = 4 ∧
       ∀ v ∈ (([10, 20, 30, 40] : List Nat).foldl ReplayMemory.append
           (ReplayMemory.new Nat 3)).sample 4 σ',
         v = 20 ∨ v = 30 ∨ v = 40) :=
  ⟨by decide,
    replay_memory_bounded Nat 3 [1, 2] 99 ⟨3, [7, 8, 9]⟩ oracle0 (by decide) rfl rfl⟩

/-! ## Candidate-cell analysis for recognised actions -/

lemma cellInBounds_ints_iff (g : SnakeGame) (q : Int × Int) :
    CellInBounds g ((some q.1 : JNum), some q.2) ↔ PairInBounds g.height_ g.width_ q := by
  unfold CellInBounds PairInBounds
  constructor
  · rintro ⟨y', x', heq, hb⟩
    have h1 : q.1 = y' := Option.some.inj (congrArg Prod.fst heq)
    have h2 : q.2 = x' := Option.some.inj (congrArg Prod.snd heq)
    rw [h1, h2]
    exact hb
  · intro hb
    exact ⟨q.1, q.2, rfl, hb.1, hb.2.1, hb.2.2.1, hb.2.2.2⟩

lemma flag_false_of_candidate_bounds (g : SnakeGame) (y x : Int) (t : List Cell) (a : Int)
    (hs : g.snakeSquares_ = (some y, some x) :: t)
    (ha : a = 0 ∨ a = 1 ∨ a = 2 ∨ a = 3)
    (hb : CellInBounds g (g.candidate a)) :
    (g.headCalc a).1 = some false := by
  rcases ha with rfl | rfl | rfl | rfl
  · have hcand : g.candidate 0 = (some y, some (x - 1)) := by
      rw [SnakeGame.candidate, headCalc_left g y x t hs]
    rw [hcand] at hb
    have h3 := ((cellInBounds_ints_iff g (y, x - 1)).mp hb).2.2.1
    rw [headCalc_left g y x t hs]
    show some (decide (x - 1 < 0)) = some false
    rw [decide_eq_false (by omega : ¬(x - 1 < 0))]
  · have hcand : g.candidate 1 = (some (y - 1), some x) := by
      rw [SnakeGame.candidate, headCalc_up g y x t hs]
    rw [hcand] at hb
    have h3 := ((cellInBounds_ints_iff g (y - 1, x)).mp hb).1
    rw [headCalc_up g y x t hs]
    show some (decide (y - 1 < 0)) = some false
    rw [decide_eq_false (by omega : ¬(y - 1 < 0))]
  · have hcand : g.candidate 2 = (some y, some (x + 1)) := by
      rw [SnakeGame.candidate, headCalc_right g y x t hs]
    rw [hcand] at hb
    have h3 := ((cellInBounds_ints_iff g (y, x + 1)).mp hb).2.2.2
    rw [headCalc_right g y x t hs]
    show some (decide ((g.width_ : Int) ≤ x + 1)) = some false
    rw [decide_eq_false (by omega : ¬((g.width_ : Int) ≤ x + 1))]
  · have hcand : g.candidate 3 = (some (y + 1), some x) := by
      rw [SnakeGame.candidate, headCalc_down g y x t hs]
    rw [hcand] at hb
    have h3 := ((cellInBounds_ints_iff g (y + 1, x)).mp hb).2.1
    rw [headCalc_down g y x t hs]
    show some (decide ((g.height_ : Int) ≤ y + 1)) = some false
    rw [decide_eq_false (by omega : ¬((g.height_ : Int) ≤ y + 1))]

lemma headCalc_spec_of_head_bounds (g : SnakeGame) (y x : Int) (t : List Cell) (a : Int)
    (hs : g.snakeSquares_ = (some y, some x) :: t)
    (ha : a = 0 ∨ a = 1 ∨ a = 2 ∨ a = 3)
    (hhead : PairInBounds g.height_ g.width_ (y, x)) :
    ∃ (ny nx : Int) (b : Bool), g.candidate a = (some ny, some nx) ∧ ¬(ny = y ∧ nx = x) ∧
      (g.headCalc a).1 = some b ∧
      (b = false ↔ PairInBounds g.height_ g.width_ (ny, nx)) := by
  obtain ⟨hh1, hh2, hh3, hh4⟩ := hhead
  simp only at hh1 hh2 hh3 hh4
  rcases ha with rfl | rfl | rfl | rfl
  · refine ⟨y, x - 1, decide (x - 1 < 0), ?_, by omega, ?_, ?_⟩
    · rw [SnakeGame.candidate, headCalc_left g y x t hs]
    · rw [headCalc_left g y x t hs]
    · rw [decide_eq_false_iff_not]
      unfold PairInBounds
      simp only
      omega
  · refine ⟨y - 1, x, decide (y - 1 < 0), ?_, by omega, ?_, ?_⟩
    · rw [SnakeGame.candidate, headCalc_up g y x t hs]
    · rw [headCalc_up g y x t hs]
    · rw [decide_eq_false_iff_not]
      unfold PairInBounds
      simp only
      omega
  · refine ⟨y, x + 1, decide ((g.width_ : Int) ≤ x + 1), ?_, by omega, ?_, ?_⟩
    · rw [SnakeGame.candidate, headCalc_right g y x t hs]
    · rw [headCalc_right g y x t hs]
    · rw [decide_eq_false_iff_not]
      unfold PairInBounds
      simp only
      omega
  · refine ⟨y + 1, x, decide ((g.height_ : Int) ≤ y + 1), ?_, by omega, ?_, ?_⟩
    · rw [SnakeGame.candidate, headCalc_down g y x t hs]
    · rw [headCalc_down g y x t hs]
    · rw [decide_eq_false_iff_not]
      unfold PairInBounds
      simp only
      omega

/-- C2: for every legal (in-bounds, non-colliding) recognised move, the
candidate cell is pushed onto the front of the snake and the tail cell
is dropped, so the snake length is unchanged by `step` — in particular
the snake never lengthens, also when a fruit is eaten (the conclusion
holds for every random stream, hence whether or not the move eats). -/
theorem step_legal_preserves_length (h w nf il : Nat) (s f : List (Int × Int)) (a : Int)
    (σ : Nat → Nat) (hs : s ≠ [])
    (ha : a = 0 ∨ a = 1 ∨ a = 2 ∨ a = 3)
    (hbound : CellInBounds (SnakeGame.mk h w nf il (ints s) (ints f))
      ((SnakeGame.mk h w nf il (ints s) (ints f)).candidate a))
    (hnocol : (SnakeGame.mk h w nf il (ints s) (ints f)).candidate a ∉ (ints s).drop 1) :
    ((SnakeGame.mk h w nf il (ints s) (ints f)).step a σ).2.snakeSquares_ =
      (SnakeGame.mk h w nf il (ints s) (ints f)).candidate a :: (ints s).dropLast ∧
    ((SnakeGame.mk h w nf il (ints s) (ints f)).step a σ).2.snakeSquares_.length =
      (SnakeGame.mk h w nf il (ints s) (ints f)).snakeSquares_.length := by
  obtain ⟨p, t, rfl⟩ := List.exists_cons_of_ne_nil hs
  have hsq : (SnakeGame.mk h w nf il (ints (p :: t)) (ints f)).snakeSquares_ =
      (some p.1, some p.2) :: ints t := rfl
  have hflag := flag_false_of_candidate_bounds _ p.1 p.2 (ints t) a hsq ha hbound
  rw [step_proceeds _ a σ hnocol (by rw [hflag]; rfl)]
  constructor
  · split <;> rfl
  · have hlen : ((SnakeGame.mk h w nf il (ints (p :: t)) (ints f)).candidate a ::
        (ints (p :: t)).dropLast).length =
        (SnakeGame.mk h w nf il (ints (p :: t)) (ints f)).snakeSquares_.length := by
      rw [List.length_cons, List.length_dropLast]
      show (ints (p :: t)).length - 1 + 1 = (ints (p :: t)).length
      have : (ints (p :: t)).length = t.length + 1 := by simp [ints]
      omega
    split <;> exact hlen

/-- C2 witness: a concrete legal RIGHT move on a 4×4 board. -/
theorem step_legal_preserves_length_witness :
    ([(1, 1), (1, 0)] : List (Int × Int)) ≠ [] ∧
    (((SnakeGame.mk 4 4 1 2 (ints [(1, 1), (1, 0)]) (ints [(0, 0)])).step 2 oracle0).2.snakeSquares_ =
      (SnakeGame.mk 4 4 1 2 (ints [(1, 1), (1, 0)]) (ints [(0, 0)])).candidate 2 ::
        (ints [(1, 1), (1, 0)]).dropLast ∧
     ((SnakeGame.mk 4 4 1 2 (ints [(1, 1), (1, 0)]) (ints [(0, 0)])).step 2 oracle0).2.snakeSquares_.length =
      (SnakeGame.mk 4 4 1 2 (ints [(1, 1), (1, 0)]) (ints [(0, 0)])).snakeSquares_.length) :=
  ⟨by decide,
    step_legal_preserves_length 4 4 1 2 [(1, 1), (1, 0)] [(0, 0)] 2 oracle0 (by decide)
      (by decide) (by decide) (by decide)⟩

/-- C1: if the candidate head cell lies outside the board bounds or
coincides with a body cell (any cell of the snake other than the head,
including the current tail), then `step` returns `{reward: 0, done:
true}` and leaves the entire game state unmodified, so a subsequent
`getStateTensor()` read reflects the pre-collision state. -/
theorem step_collision_frame (h w nf il : Nat) (s f : List (Int × Int)) (a : Int)
    (σ : Nat → Nat) (hs : s ≠ [])
    (hhead : PairInBounds h w s.headI)
    (ha : a = 0 ∨ a = 1 ∨ a = 2 ∨ a = 3)
    (hcol : ¬ CellInBounds (SnakeGame.mk h w nf il (ints s) (ints f))
        ((SnakeGame.mk h w nf il (ints s) (ints f)).candidate a) ∨
      (SnakeGame.mk h w nf il (ints s) (ints f)).candidate a ∈ (ints s).drop 1) :
    (SnakeGame.mk h w nf il (ints s) (ints f)).step a σ =
      ({ reward := 0, done := some true }, SnakeGame.mk h w nf il (ints s) (ints f)) ∧
    ((SnakeGame.mk h w nf il (ints s) (ints f)).step a σ).2.getStateTensor =
      (SnakeGame.mk h w nf il (ints s) (ints f)).getStateTensor := by
  obtain ⟨p, t, rfl⟩ := List.exists_cons_of_ne_nil hs
  have hsq : (SnakeGame.mk h w nf il (ints (p :: t)) (ints f)).snakeSquares_ =
      (some p.1, some p.2) :: ints t := rfl
  have hstep : (SnakeGame.mk h w nf il (ints (p :: t)) (ints f)).step a σ =
      ({ reward := 0, done := some true }, SnakeGame.mk h w nf il (ints (p :: t)) (ints f)) := by
    rcases hcol with hnb | hmem
    · obtain ⟨ny, nx, b, hcand, hne, hflag, hiff⟩ :=
        headCalc_spec_of_head_bounds _ p.1 p.2 (ints t) a hsq ha
          (by simpa using hhead)
      have hb : b = true := by
        rcases Bool.eq_false_or_eq_true b with hb | hb
        · exact hb
        · exact absurd ((cellInBounds_ints_iff _ (ny, nx)).mpr (hiff.mp hb))
            (by rwa [hcand] at hnb)
      exact step_of_terminal _ a σ (Or.inr (by rw [hflag, hb]))
    · exact step_of_terminal _ a σ (Or.inl hmem)
  exact ⟨hstep, by rw [hstep]⟩

/-- C1 witness: a RIGHT move whose candidate cell is the snake's tail on
a 4×4 board. -/
theorem step_collision_frame_witness :
    ([(0, 0), (0, 1)] : List (Int × Int)) ≠ [] ∧
    PairInBounds 4 4 ([(0, 0), (0, 1)] : List (Int × Int)).headI ∧
    ((SnakeGame.mk 4 4 1 2 (ints [(0, 0), (0, 1)]) (ints [(2, 2)])).step 2 oracle0 =
      ({ reward := 0, done := some true },
        SnakeGame.mk 4 4 1 2 (ints [(0, 0), (0, 1)]) (ints [(2, 2)])) ∧
     ((SnakeGame.mk 4 4 1 2 (ints [(0, 0), (0, 1)]) (ints [(2, 2)])).step 2 oracle0).2.getStateTensor =
      (SnakeGame.mk 4 4 1 2 (ints [(0, 0), (0, 1)]) (ints [(2, 2)])).getStateTensor) :=
  ⟨by decide, by decide,
    step_collision_frame 4 4 1 2 [(0, 0), (0, 1)] [(2, 2)] 2 oracle0 (by decide) (by decide)
      (by decide) (Or.inr (by decide))⟩

/-! ## The empty-indices list of `makeFruits_` -/

lemma getRandomInteger_mem_Ico (mn mx : Int) (s : Nat) (h : mn < mx) :
    mn ≤ getRandomInteger mn mx s ∧ getRandomInteger mn mx s < mx := by
  unfold getRandomInteger
  rw [if_pos h]
  have hpos : 0 < (mx - mn).toNat := by omega
  have hlt := Nat.mod_lt s hpos
  omega

lemma getRandomInteger_zero_len (n : Nat) (hn : 0 < n) (s : Nat) :
    getRandomInteger 0 (n : Int) s = ((s % n : Nat) : Int) := by
  unfold getRandomInteger
  rw [if_pos (by exact_mod_cast hn)]
  simp

lemma emptyIndices_eq (h w : Nat) :
    (List.range h).flatMap
        (fun i => (List.range w).map (fun (j : Nat) => (i : Int) * (w : Int) + (j : Int))) =
      (List.range (h * w)).map (fun (m : Nat) => (m : Int)) := by
  induction h with
  | zero => simp
  | succ n ih =>
    rw [List.range_succ, List.flatMap_append, ih, Nat.succ_mul, List.range_add,
      List.map_append]
    congr 1
    rw [List.flatMap_cons, List.flatMap_nil, List.append_nil, List.map_map]
    apply List.map_congr_left
    intro j hj
    show (n : Int) * (w : Int) + (j : Int) = ((n * w + j : Nat) : Int)
    push_cast
    ring

lemma mem_rangeInts_iff (m : Nat) (k : Int) :
    k ∈ (List.range m).map (fun (j : Nat) => (j : Int)) ↔ 0 ≤ k ∧ k < (m : Int) := by
  rw [List.mem_map]
  constructor
  · rintro ⟨j, hj, rfl⟩
    rw [List.mem_range] at hj
    omega
  · rintro ⟨h0, hm⟩
    refine ⟨k.toNat, ?_, by omega⟩
    rw [List.mem_range]
    omega

lemma rangeInts_nodup (m : Nat) : ((List.range m).map (fun (j : Nat) => (j : Int))).Nodup :=
  (List.nodup_range m).map (fun a b hab => by omega)

lemma pairIndex_div_mod (w : Int) (hw : 0 < w) (p : Int × Int) (h2 : 0 ≤ p.2) (h4 : p.2 < w) :
    pairIndex w p / w = p.1 ∧ pairIndex w p % w = p.2 := by
  unfold pairIndex
  constructor
  · rw [add_comm, Int.add_mul_ediv_right _ _ (by omega : w ≠ 0),
      Int.ediv_eq_zero_of_lt h2 h4, zero_add]
  · rw [add_comm, Int.add_mul_emod_self, Int.emod_eq_of_lt h2 h4]

lemma pairIndex_bounds (h w : Nat) (p : Int × Int) (hp : PairInBounds h w p) :
    0 ≤ pairIndex (w : Int) p ∧ pairIndex (w : Int) p < ((h * w : Nat) : Int) := by
  obtain ⟨h1, h2, h3, h4⟩ := hp
  unfold pairIndex
  constructor
  · have := mul_nonneg h1 (by omega : (0 : Int) ≤ (w : Nat))
    omega
  · have hle : (p.1 + 1) * (w : Int) ≤ (h : Int) * w :=
      mul_le_mul_of_nonneg_right (by omega) (by omega)
    push_cast
    nlinarith

lemma pairIndex_inj_on (h w : Nat) (p q : Int × Int)
    (hp : PairInBounds h w p) (hq : PairInBounds h w q) (hw : 0 < w)
    (he : pairIndex (w : Int) p = pairIndex (w : Int) q) : p = q := by
  have hw' : (0 : Int) < w := by exact_mod_cast hw
  have dp := pairIndex_div_mod (w : Int) hw' p hp.2.2.1 hp.2.2.2
  have dq := pairIndex_div_mod (w : Int) hw' q hq.2.2.1 hq.2.2.2
  have e1 : p.1 = q.1 := by rw [← dp.1, ← dq.1, he]
  have e2 : p.2 = q.2 := by rw [← dp.2, ← dq.2, he]
  exact Prod.ext e1 e2

/-! ## Removing the snake squares from the empty indices -/

lemma foldl_splice_spec (w : Int) (s : List (Int × Int)) :
    ∀ L : List Int, L.Nodup → (∀ p ∈ s, pairIndex w p ∈ L) →
      (s.map (pairIndex w)).Nodup →
      (((ints s).foldl (fun l c => spliceOutIndexOf l (cellIndex w c)) L).Nodup ∧
       (∀ k : Int, k ∈ (ints s).foldl (fun l c => spliceOutIndexOf l (cellIndex w c)) L ↔
          (k ∈ L ∧ k ∉ s.map (pairIndex w))) ∧
       ((ints s).foldl (fun l c => spliceOutIndexOf l (cellIndex w c)) L).length + s.length =
         L.length) := by
  induction s with
  | nil =>
    intro L hnd _ _
    refine ⟨hnd, fun k => ?_, by simp [ints]⟩
    simp [ints]
  | cons p t ih =>
    intro L hnd hmem hinj
    have hpL : pairIndex w p ∈ L := hmem p (List.mem_cons_self p t)
    have hstep : (ints (p :: t)).foldl (fun l c => spliceOutIndexOf l (cellIndex w c)) L =
        (ints t).foldl (fun l c => spliceOutIndexOf l (cellIndex w c))
          (L.erase (pairIndex w p)) := by
      show List.foldl _ (spliceOutIndexOf L (cellIndex w ((some p.1 : JNum), some p.2))) _ = _
      have h1 : cellIndex w ((some p.1 : JNum), some p.2) = some (pairIndex w p) := rfl
      have h2 : spliceOutIndexOf L (some (pairIndex w p)) = L.erase (pairIndex w p) := by
        simp [spliceOutIndexOf, hpL]
      rw [h1, h2]
      rfl
    rw [List.map_cons, List.nodup_cons] at hinj
    have hnd' : (L.erase (pairIndex w p)).Nodup := hnd.erase _
    have hmem' : ∀ q ∈ t, pairIndex w q ∈ L.erase (pairIndex w p) := by
      intro q hq
      have hne : pairIndex w q ≠ pairIndex w p := by
        intro he
        exact hinj.1 (he ▸ List.mem_map_of_mem (pairIndex w) hq)
      exact (List.mem_erase_of_ne hne).mpr (hmem q (List.mem_cons_of_mem p hq))
    obtain ⟨ihnd, ihmem, ihlen⟩ := ih (L.erase (pairIndex w p)) hnd' hmem' hinj.2
    rw [hstep]
    refine ⟨ihnd, ?_, ?_⟩
    · intro k
      rw [ihmem k, hnd.mem_erase_iff]
      simp only [List.map_cons, List.mem_cons]
      constructor
      · rintro ⟨⟨hk1, hk2⟩, hk3⟩
        exact ⟨hk2, fun hc => hc.elim (fun hc => hk1 hc) (fun hc => hk3 hc)⟩
      · rintro ⟨hk1, hk2⟩
        exact ⟨⟨fun hc => hk2 (Or.inl hc), hk1⟩, fun hc => hk2 (Or.inr hc)⟩
    · rw [List.length_cons]
      have := List.length_erase_of_mem hpL
      have hL : 0 < L.length := List.length_pos_of_mem hpL
      omega

/-! ## The fruit-placement loop -/

lemma makeFruitsLoop_succ (w : Int) (rm : Bool) (σ : Nat → Nat) (k n : Nat) (L : List Int) :
    makeFruitsLoop w rm σ k (n + 1) L =
      (match jsIndex L (getRandomInteger 0 (L.length : Int) (σ k)) with
        | some fi => (((some (fi / w) : JNum)), ((some (fi % w) : JNum)))
        | none => (((none : JNum)), ((none : JNum)))) ::
      makeFruitsLoop w rm σ (k + 1) n
        (if rm then spliceOutIndexOf L (jsIndex L (getRandomInteger 0 (L.length : Int) (σ k)))
         else L) := rfl

lemma makeFruitsLoop_spec (w : Int) (rm : Bool) (σ : Nat → Nat) (P : Int → Prop) :
    ∀ (n k : Nat) (L : List Int), (∀ fi ∈ L, P fi) → n ≤ L.length →
      ∃ ps : List (Int × Int), makeFruitsLoop w rm σ k n L = ints ps ∧ ps.length = n ∧
        ∀ p ∈ ps, ∃ fi : Int, P fi ∧ p = (fi / w, fi % w) := by
  intro n
  induction n with
  | zero =>
    intro k L _ _
    exact ⟨[], rfl, rfl, by simp⟩
  | succ m ih =>
    intro k L hP hlen
    have hL : 0 < L.length := by omega
    have hr := getRandomInteger_zero_len L.length hL (σ k)
    have hrlt : σ k % L.length < L.length := Nat.mod_lt _ hL
    have hidx : jsIndex L (getRandomInteger 0 (L.length : Int) (σ k)) =
        some (L.get ⟨σ k % L.length, hrlt⟩) := by
      rw [hr]
      unfold jsIndex
      rw [if_neg (by omega)]
      rw [Int.toNat_natCast]
      exact List.getElem?_eq_getElem hrlt
    have hfi : L.get ⟨σ k % L.length, hrlt⟩ ∈ L := List.get_mem L _ hrlt
    set fi := L.get ⟨σ k % L.length, hrlt⟩ with hfidef
    have hsp : spliceOutIndexOf L (some fi) = L.erase fi := by
      simp [spliceOutIndexOf, hfi]
    have hsub : (if rm then spliceOutIndexOf L (jsIndex L
        (getRandomInteger 0 (L.length : Int) (σ k))) else L) ⊆ L := by
      rcases Bool.eq_false_or_eq_true rm with hrm | hrm
      · rw [hrm]
        simp only [if_true]
        rw [hidx, hsp]
        exact List.erase_subset _ _
      · rw [hrm]
        simp only [Bool.false_eq_true, if_false]
        exact fun a ha => ha
    have hL' : ∀ fi' ∈ (if rm then spliceOutIndexOf L (jsIndex L
        (getRandomInteger 0 (L.length : Int) (σ k))) else L), P fi' :=
      fun fi' hmem' => hP fi' (hsub hmem')
    have hlen' : m ≤ (if rm then spliceOutIndexOf L (jsIndex L
        (getRandomInteger 0 (L.length : Int) (σ k))) else L).length := by
      rcases Bool.eq_false_or_eq_true rm with hrm | hrm
      · rw [hrm]
        simp only [if_true]
        rw [hidx, hsp, List.length_erase_of_mem hfi]
        omega
      · rw [hrm]
        simp only [Bool.false_eq_true, if_false]
        omega
    obtain ⟨ps, hps, hpslen, hpsP⟩ := ih (k + 1) _ hL' hlen'
    refine ⟨(fi / w, fi % w) :: ps, ?_, by simp [hpslen], ?_⟩
    · rw [makeFruitsLoop_succ, hps, hidx]
      rfl
    · intro p hp
      rcases List.mem_cons.mp hp with rfl | hp
      · exact ⟨fi, hP fi hfi, rfl⟩
      · exact hpsP p hp

/-! ## The specification of `makeFruits_` -/

lemma makeFruits_empties (g : SnakeGame) (s : List (Int × Int))
    (hg : g.snakeSquares_ = ints s) (hw : 0 < g.width_)
    (hnodup : s.Nodup) (hsb : ∀ p ∈ s, PairInBounds g.height_ g.width_ p) :
    ((g.snakeSquares_.foldl (fun l c => spliceOutIndexOf l (cellIndex (g.width_ : Int) c))
        ((List.range (g.height_ * g.width_)).map (fun (m : Nat) => (m : Int)))).Nodup ∧
     (∀ k : Int,
        k ∈ g.snakeSquares_.foldl (fun l c => spliceOutIndexOf l (cellIndex (g.width_ : Int) c))
          ((List.range (g.height_ * g.width_)).map (fun (m : Nat) => (m : Int))) ↔
          (0 ≤ k ∧ k < ((g.height_ * g.width_ : Nat) : Int) ∧
            k ∉ s.map (pairIndex (g.width_ : Int)))) ∧
     (g.snakeSquares_.foldl (fun l c => spliceOutIndexOf l (cellIndex (g.width_ : Int) c))
        ((List.range (g.height_ * g.width_)).map (fun (m : Nat) => (m : Int)))).length +
       s.length = g.height_ * g.width_) := by
  rw [hg]
  have hinj : (s.map (pairIndex (g.width_ : Int))).Nodup :=
    hnodup.map_on (fun p hp q hq he => pairIndex_inj_on g.height_ g.width_ p q
      (hsb p hp) (hsb q hq) hw he)
  have hmem : ∀ p ∈ s, pairIndex (g.width_ : Int) p ∈
      (List.range (g.height_ * g.width_)).map (fun (m : Nat) => (m : Int)) := by
    intro p hp
    rw [mem_rangeInts_iff]
    have := pairIndex_bounds g.height_ g.width_ p (hsb p hp)
    push_cast at this ⊢
    exact this
  obtain ⟨h1, h2, h3⟩ := foldl_splice_spec (g.width_ : Int) s _
    (rangeInts_nodup _) hmem hinj
  refine ⟨h1, ?_, ?_⟩
  · intro k
    rw [h2 k, mem_rangeInts_iff]
    push_cast
    tauto
  · rw [h3]
    simp

lemma makeFruits_spec (g : SnakeGame) (s : List (Int × Int)) (σ : Nat → Nat)
    (hg : g.snakeSquares_ = ints s) (hw : 0 < g.width_)
    (hnodup : s.Nodup) (hsb : ∀ p ∈ s, PairInBounds g.height_ g.width_ p)
    (hcap : ((g.numFruits_ : Int) - g.fruitSquares_.length).toNat + s.length ≤
      g.height_ * g.width_) :
    ∃ new : List (Int × Int),
      g.makeFruits_ σ = g.fruitSquares_ ++ ints new ∧
      new.length = ((g.numFruits_ : Int) - g.fruitSquares_.length).toNat ∧
      ∀ p ∈ new, PairInBounds g.height_ g.width_ p ∧ p ∉ s := by
  simp only [SnakeGame.makeFruits_]
  by_cases hdle : (g.numFruits_ : Int) - (g.fruitSquares_.length : Int) ≤ 0
  · refine ⟨[], ?_, by simp only [List.length_nil]; omega, by simp⟩
    rw [if_pos hdle]
    simp [ints]
  · rw [if_neg hdle]
    rw [emptyIndices_eq g.height_ g.width_]
    obtain ⟨hnd1, hmem1, hlen1⟩ := makeFruits_empties g s hg hw hnodup hsb
    have hwInt : (0 : Int) < (g.width_ : Int) := by exact_mod_cast hw
    obtain ⟨ps, hps, hpslen, hpsP⟩ := makeFruitsLoop_spec (g.width_ : Int)
      (decide (1 < (g.numFruits_ : Int) - (g.fruitSquares_.length : Int))) σ
      (fun fi => 0 ≤ fi ∧ fi < ((g.height_ * g.width_ : Nat) : Int) ∧
        fi ∉ s.map (pairIndex (g.width_ : Int)))
      ((g.numFruits_ : Int) - (g.fruitSquares_.length : Int)).toNat 0 _
      (fun fi hfi => (hmem1 fi).mp hfi)
      (by omega)
    refine ⟨ps, by rw [hps], hpslen, ?_⟩
    intro p hp
    obtain ⟨fi, ⟨hfi0, hfiU, hfiS⟩, rfl⟩ := hpsP p hp
    have hfiU' : fi < (g.height_ : Int) * (g.width_ : Int) := by push_cast at hfiU; exact hfiU
    have hrec : (fi / (g.width_ : Int)) * (g.width_ : Int) + fi % (g.width_ : Int) = fi := by
      rw [mul_comm]
      exact Int.ediv_add_emod fi _
    constructor
    · refine ⟨Int.ediv_nonneg hfi0 (by omega), ?_, Int.emod_nonneg fi (by omega), Int.emod_lt_of_pos fi hwInt⟩
      show fi / (g.width_ : Int) < (g.height_ : Int)
      rw [Int.ediv_lt_iff_lt_mul hwInt]
      exact lt_of_lt_of_le hfiU' (by rw [mul_comm])
    · intro hpmem
      apply hfiS
      have : pairIndex (g.width_ : Int) (fi / (g.width_ : Int), fi % (g.width_ : Int)) = fi := by
        unfold pairIndex
        exact hrec
      rw [← this]
      exact List.mem_map_of_mem _ hpmem

lemma makeFruits_surj (g : SnakeGame) (s : List (Int × Int)) (q : Int × Int) (σ₀ : Nat → Nat)
    (hg : g.snakeSquares_ = ints s) (hw : 0 < g.width_)
    (hnodup : s.Nodup) (hsb : ∀ p ∈ s, PairInBounds g.height_ g.width_ p)
    (hdef : (g.numFruits_ : Int) - (g.fruitSquares_.length : Int) = 1)
    (hq : PairInBounds g.height_ g.width_ q) (hqs : q ∉ s) :
    ∃ σ : Nat → Nat, g.makeFruits_ σ =
      g.fruitSquares_ ++ [((some q.1 : JNum), some q.2)] := by
  obtain ⟨hnd1, hmem1, hlen1⟩ := makeFruits_empties g s hg hw hnodup hsb
  set L1 := g.snakeSquares_.foldl (fun l c => spliceOutIndexOf l (cellIndex (g.width_ : Int) c))
    ((List.range (g.height_ * g.width_)).map (fun (m : Nat) => (m : Int))) with hL1
  have hwInt : (0 : Int) < (g.width_ : Int) := by exact_mod_cast hw
  have hkq : pairIndex (g.width_ : Int) q ∈ L1 := by
    rw [hmem1]
    obtain ⟨hb1, hb2⟩ := pairIndex_bounds g.height_ g.width_ q hq
    refine ⟨hb1, hb2, fun hc => ?_⟩
    rcases List.mem_map.mp hc with ⟨p, hp, hpe⟩
    exact hqs ((pairIndex_inj_on g.height_ g.width_ p q (hsb p hp) hq hw hpe) ▸ hp)
  have hjlt : L1.indexOf (pairIndex (g.width_ : Int) q) < L1.length :=
    List.indexOf_lt_length.mpr hkq
  refine ⟨fun _ => L1.indexOf (pairIndex (g.width_ : Int) q), ?_⟩
  simp only [SnakeGame.makeFruits_]
  rw [if_neg (by omega)]
  rw [emptyIndices_eq g.height_ g.width_, ← hL1, hdef]
  have hL1pos : 0 < L1.length := by omega
  have hrand := getRandomInteger_zero_len L1.length hL1pos
    (L1.indexOf (pairIndex (g.width_ : Int) q))
  have hidx : jsIndex L1 (getRandomInteger 0 (L1.length : Int)
      (L1.indexOf (pairIndex (g.width_ : Int) q))) =
      some (pairIndex (g.width_ : Int) q) := by
    rw [hrand, Nat.mod_eq_of_lt hjlt]
    unfold jsIndex
    rw [if_neg (by omega), Int.toNat_natCast]
    rw [List.getElem?_eq_getElem hjlt]
    congr 1
    exact List.getElem_indexOf hjlt
  have hdm := pairIndex_div_mod (g.width_ : Int) hwInt q hq.2.2.1 hq.2.2.2
  show g.fruitSquares_ ++ makeFruitsLoop (g.width_ : Int) (decide ((1 : Int) < 1))
      (fun _ => L1.indexOf (pairIndex (g.width_ : Int) q)) 0 (Int.toNat 1) L1 = _
  rw [show Int.toNat 1 = 1 from rfl]
  rw [makeFruitsLoop_succ, hidx]
  show g.fruitSquares_ ++ ((some (pairIndex (g.width_ : Int) q / (g.width_ : Int)) : JNum),
      (some (pairIndex (g.width_ : Int) q % (g.width_ : Int)) : JNum)) :: [] = _
  rw [hdm.1, hdm.2]

lemma initializeSnake_spec (height width initLen : Nat) (σ : Nat → Nat)
    (hh : 0 < height) (hil : 0 < initLen) (hilw : initLen ≤ width) :
    ∃ y x : Int, initializeSnake_ height width initLen σ =
        ints ((List.range initLen).map (fun (i : Nat) => (y, x - (i : Int)))) ∧
      0 ≤ y ∧ y < (height : Int) ∧ (initLen : Int) - 1 ≤ x ∧ x < (width : Int) := by
  have hy := getRandomInteger_mem_Ico 0 (height : Int) (σ 0) (by exact_mod_cast hh)
  have hx := getRandomInteger_mem_Ico ((initLen : Int) - 1) (width : Int) (σ 1)
    (by have : (initLen : Int) ≤ (width : Int) := by exact_mod_cast hilw
        omega)
  refine ⟨getRandomInteger 0 (height : Int) (σ 0),
    getRandomInteger ((initLen : Int) - 1) (width : Int) (σ 1), ?_,
    hy.1, hy.2, hx.1, hx.2⟩
  unfold initializeSnake_ ints
  obtain ⟨m, hm⟩ : ∃ m, initLen = m + 1 := ⟨initLen - 1, by omega⟩
  rw [hm]
  rw [List.range_eq_range', show m + 1 - 1 = m from rfl, List.range'_succ]
  simp only [List.map_cons, List.map_map]
  congr 1
  all_goals first
  | rfl
  | simp

/-! ## Eliminating a successful construction -/

lemma isPosInt_num_toNat_pos {q : ℚ} (h : isPosInt q = true) : 0 < q.num.toNat := by
  unfold isPosInt at h
  rw [Bool.and_eq_true, decide_eq_true_eq] at h
  have := Rat.num_pos.mpr h.2
  omega

lemma isPosInt_natCast {n : Nat} (hn : 0 < n) : isPosInt (n : ℚ) = true := by
  unfold isPosInt
  rw [Bool.and_eq_true, decide_eq_true_eq]
  exact ⟨by simp [Rat.isInt], by exact_mod_cast hn⟩

lemma construct_ok_elim (args : Option GameArgs) (σ₁ σ₂ : Nat → Nat) (g : SnakeGame)
    (hok : (SnakeGame.construct args σ₁ σ₂).2 = Except.ok g) :
    0 < g.height_ ∧ 0 < g.width_ ∧ 0 < g.numFruits_ ∧ 0 < g.initLen_ ∧
    g.height_ = (resolveArgs args).height.num.toNat ∧
    g.width_ = (resolveArgs args).width.num.toNat ∧
    g.numFruits_ = (resolveArgs args).numFruits.num.toNat ∧
    g.initLen_ = (resolveArgs args).initLen.num.toNat ∧
    g.snakeSquares_ = initializeSnake_ g.height_ g.width_ g.initLen_ σ₁ ∧
    g.fruitSquares_ = SnakeGame.makeFruits_
      ⟨g.height_, g.width_, g.numFruits_, g.initLen_,
        initializeSnake_ g.height_ g.width_ g.initLen_ σ₁, []⟩ σ₂ := by
  obtain ⟨q1, q2, q3, q4⟩ := (construct_ok_iff args σ₁ σ₂).mp ⟨g, hok⟩
  have e1 := (assertPositiveInteger_ok_iff (resolveArgs args).height "height").mpr q1
  have e2 := (assertPositiveInteger_ok_iff (resolveArgs args).width "width").mpr q2
  have e3 := (assertPositiveInteger_ok_iff (resolveArgs args).numFruits "numFruits").mpr q3
  have e4 := (assertPositiveInteger_ok_iff (resolveArgs args).initLen "initLen").mpr q4
  simp only [SnakeGame.construct, e1, e2, e3, e4] at hok
  have hg := Except.ok.inj hok
  subst hg
  exact ⟨isPosInt_num_toNat_pos q1, isPosInt_num_toNat_pos q2, isPosInt_num_toNat_pos q3,
    isPosInt_num_toNat_pos q4, rfl, rfl, rfl, rfl, rfl, rfl⟩

lemma construct_natCast_ok (h w nf il : Nat) (σ₁ σ₂ : Nat → Nat)
    (hh : 0 < h) (hw : 0 < w) (hnf : 0 < nf) (hil : 0 < il) :
    ∃ g, (SnakeGame.construct
        (some ⟨some (h : ℚ), some (w : ℚ), some (nf : ℚ), some (il : ℚ)⟩) σ₁ σ₂).2 =
        Except.ok g ∧
      g.height_ = h ∧ g.width_ = w ∧ g.numFruits_ = nf ∧ g.initLen_ = il ∧
      g.snakeSquares_ = initializeSnake_ h w il σ₁ ∧
      g.fruitSquares_ = SnakeGame.makeFruits_
        ⟨h, w, nf, il, initializeSnake_ h w il σ₁, []⟩ σ₂ := by
  obtain ⟨g, hok⟩ := (construct_ok_iff
      (some ⟨some (h : ℚ), some (w : ℚ), some (nf : ℚ), some (il : ℚ)⟩) σ₁ σ₂).mpr
    ⟨isPosInt_natCast hh, isPosInt_natCast hw, isPosInt_natCast hnf, isPosInt_natCast hil⟩
  obtain ⟨_, _, _, _, f1, f2, f3, f4, hsn, hfr⟩ := construct_ok_elim _ σ₁ σ₂ g hok
  have r1 : (resolveArgs (some ⟨some (h : ℚ), some (w : ℚ), some (nf : ℚ),
      some (il : ℚ)⟩)).height.num.toNat = h := by
    show ((h : ℚ)).num.toNat = h
    rw [Rat.num_natCast, Int.toNat_natCast]
  have r2 : (resolveArgs (some ⟨some (h : ℚ), some (w : ℚ), some (nf : ℚ),
      some (il : ℚ)⟩)).width.num.toNat = w := by
    show ((w : ℚ)).num.toNat = w
    rw [Rat.num_natCast, Int.toNat_natCast]
  have r3 : (resolveArgs (some ⟨some (h : ℚ), some (w : ℚ), some (nf : ℚ),
      some (il : ℚ)⟩)).numFruits.num.toNat = nf := by
    show ((nf : ℚ)).num.toNat = nf
    rw [Rat.num_natCast, Int.toNat_natCast]
  have r4 : (resolveArgs (some ⟨some (h : ℚ), some (w : ℚ), some (nf : ℚ),
      some (il : ℚ)⟩)).initLen.num.toNat = il := by
    show ((il : ℚ)).num.toNat = il
    rw [Rat.num_natCast, Int.toNat_natCast]
  refine ⟨g, hok, f1.trans r1, f2.trans r2, f3.trans r3, f4.trans r4, ?_, ?_⟩
  · rw [hsn, f1.trans r1, f2.trans r2, f4.trans r4]
  · rw [hfr, f1.trans r1, f2.trans r2, f3.trans r3, f4.trans r4]

lemma snakePairs_props (h w il : Nat) (y x : Int)
    (hy1 : 0 ≤ y) (hy2 : y < (h : Int)) (hx1 : (il : Int) - 1 ≤ x) (hx2 : x < (w : Int)) :
    ((List.range il).map (fun (i : Nat) => (y, x - (i : Int)))).length = il ∧
    ((List.range il).map (fun (i : Nat) => (y, x - (i : Int)))).Nodup ∧
    ∀ p ∈ (List.range il).map (fun (i : Nat) => (y, x - (i : Int))), PairInBounds h w p := by
  refine ⟨by simp, ?_, ?_⟩
  · refine (List.nodup_range il).map (fun a b hab => ?_)
    have h2 : x - (a : Int) = x - (b : Int) := congrArg Prod.snd hab
    omega
  · intro p hp
    rcases List.mem_map.mp hp with ⟨i, hi, rfl⟩
    rw [List.mem_range] at hi
    exact ⟨hy1, hy2, by omega, by omega⟩

/-- C7 (amended): for every valid configuration whose snake fits on the
board (`initLen ≤ width`) and whose fruits fit in the remaining squares
(`numFruits + initLen ≤ height * width`), construction succeeds and
yields a snake of exactly `initLen` horizontally-contiguous,
pairwise-distinct, in-bounds cells — a random row `y` and a random head
column `x ∈ [initLen - 1, width)` so the whole body fits — together
with exactly `numFruits` fruits placed on cells not occupied by the
snake. -/
theorem construct_initial_state (h w nf il : Nat) (σ₁ σ₂ : Nat → Nat)
    (hh : 0 < h) (hw : 0 < w) (hnf : 0 < nf) (hil : 0 < il)
    (hilw : il ≤ w) (hcap : nf + il ≤ h * w) :
    ∃ (g : SnakeGame) (y x : Int) (fr : List (Int × Int)),
      (SnakeGame.construct
          (some ⟨some (h : ℚ), some (w : ℚ), some (nf : ℚ), some (il : ℚ)⟩) σ₁ σ₂).2 =
        Except.ok g ∧
      g.height_ = h ∧ g.width_ = w ∧ g.numFruits_ = nf ∧ g.initLen_ = il ∧
      g.snakeSquares_ = ints ((List.range il).map (fun (i : Nat) => (y, x - (i : Int)))) ∧
      g.snakeSquares_.length = il ∧ g.snakeSquares_.Nodup ∧
      0 ≤ y ∧ y < (h : Int) ∧ (il : Int) - 1 ≤ x ∧ x < (w : Int) ∧
      (∀ c ∈ g.snakeSquares_, CellInBounds g c) ∧
      g.fruitSquares_ = ints fr ∧ fr.length = nf ∧
      (∀ p ∈ fr, PairInBounds h w p ∧
        ((some p.1 : JNum), (some p.2 : JNum)) ∉ g.snakeSquares_) := by
  obtain ⟨g, hok, f1, f2, f3, f4, hsn, hfr⟩ := construct_natCast_ok h w nf il σ₁ σ₂ hh hw hnf hil
  obtain ⟨y, x, hini, hy1, hy2, hx1, hx2⟩ := initializeSnake_spec h w il σ₁ hh hil hilw
  obtain ⟨hplen, hpnd, hpb⟩ := snakePairs_props h w il y x hy1 hy2 hx1 hx2
  set pairs := (List.range il).map (fun (i : Nat) => (y, x - (i : Int))) with hpairs
  have hsn' : g.snakeSquares_ = ints pairs := by rw [hsn, hini]
  have hg0 : (⟨h, w, nf, il, initializeSnake_ h w il σ₁, []⟩ : SnakeGame).snakeSquares_ =
      ints pairs := by
    show initializeSnake_ h w il σ₁ = ints pairs
    rw [hini]
  obtain ⟨fr, hfr', hfrlen, hfrP⟩ := makeFruits_spec
    (⟨h, w, nf, il, initializeSnake_ h w il σ₁, []⟩ : SnakeGame) pairs σ₂ hg0 hw hpnd
    (by intro p hp; exact hpb p hp)
    (by show ((nf : Int) - (([] : List Cell).length : Int)).toNat + pairs.length ≤ h * w
        rw [hpairs]
        simp only [List.length_nil, Nat.cast_zero, sub_zero, Int.toNat_natCast,
          List.length_map, List.length_range]
        omega)
  have hfr'' : g.fruitSquares_ = ints fr := by
    rw [hfr, hfr']
    show ([] : List Cell) ++ ints fr = ints fr
    simp
  refine ⟨g, y, x, fr, hok, f1, f2, f3, f4, hsn', ?_, ?_, hy1, hy2, hx1, hx2, ?_, hfr'', ?_, ?_⟩
  · rw [hsn']
    simp [ints, hpairs]
  · rw [hsn']
    exact ints_nodup hpnd
  · intro c hc
    rw [hsn'] at hc
    rcases mem_of_mem_ints hc with ⟨p, hp, rfl⟩
    rw [show CellInBounds g ((some p.1 : JNum), some p.2) ↔
        PairInBounds g.height_ g.width_ p from cellInBounds_ints_iff g p, f1, f2]
    exact hpb p hp
  · rw [hfrlen]
    show ((nf : Int) - (([] : List Cell).length : Int)).toNat = nf
    simp
  · intro p hp
    refine ⟨(hfrP p hp).1, ?_⟩
    rw [hsn']
    intro hc
    exact (hfrP p hp).2 (mem_ints.mp hc)

/-- C7 witness: the amended construction contract applied at the default
configuration 16×16 with 1 fruit and initial length 4. -/
theorem construct_initial_state_witness :
    0 < 16 ∧ 0 < 1 ∧ 0 < 4 ∧ 4 ≤ 16 ∧ 1 + 4 ≤ 16 * 16 ∧
    (∃ (g : SnakeGame) (y x : Int) (fr : List (Int × Int)),
      (SnakeGame.construct
          (some ⟨some (16 : ℚ), some (16 : ℚ), some (1 : ℚ), some (4 : ℚ)⟩)
          oracle0 oracle0).2 = Except.ok g ∧
      g.height_ = 16 ∧ g.width_ = 16 ∧ g.numFruits_ = 1 ∧ g.initLen_ = 4 ∧
      g.snakeSquares_ = ints ((List.range 4).map (fun (i : Nat) => (y, x - (i : Int)))) ∧
      g.snakeSquares_.length = 4 ∧ g.snakeSquares_.Nodup ∧
      0 ≤ y ∧ y < (16 : Int) ∧ (4 : Int) - 1 ≤ x ∧ x < (16 : Int) ∧
      (∀ c ∈ g.snakeSquares_, CellInBounds g c) ∧
      g.fruitSquares_ = ints fr ∧ fr.length = 1 ∧
      (∀ p ∈ fr, PairInBounds 16 16 p ∧
        ((some p.1 : JNum), (some p.2 : JNum)) ∉ g.snakeSquares_)) :=
  ⟨by decide, by decide, by decide, by decide, by decide,
    construct_initial_state 16 16 1 4 oracle0 oracle0 (by decide) (by decide) (by decide)
      (by decide) (by decide) (by decide)⟩

/-- C7 counterexample: the configuration `height 1, width 2, numFruits
1, initLen 3` is made of positive integers, so it is accepted, yet the
constructed snake `[(0,2), (0,1), (0,0)]` has a cell outside the 1×2
board (and the fruit, placed after `emptyIndices` underflows, has
`NaN` coordinates) — the claim as stated fails for configurations whose
snake cannot fit in one row. -/
theorem construct_initLen_gt_width :
    (SnakeGame.construct (some ⟨some (1 : ℚ), some (2 : ℚ), some (1 : ℚ), some (3 : ℚ)⟩)
        oracle0 oracle0).2 =
      Except.ok ⟨1, 2, 1, 3, ints [(0, 2), (0, 1), (0, 0)], [(none, none)]⟩ ∧
    snakeCellsInBounds ⟨1, 2, 1, 3, ints [(0, 2), (0, 1), (0, 0)], [(none, none)]⟩ = false := by
  constructor
  · decide
  · decide

lemma ints_eraseIdx (l : List (Int × Int)) (i : Nat) :
    (ints l).eraseIdx i = ints (l.eraseIdx i) := by
  induction l generalizing i with
  | nil => simp [ints]
  | cons p t ih =>
    cases i with
    | zero => rfl
    | succ j =>
      show ((some p.1 : JNum), some p.2) :: (ints t).eraseIdx j = _
      rw [ih j]
      rfl

lemma predMatch_ints (ny nx : Int) (q : Int × Int) :
    ((fun c : Cell => c.1 == ((some ny : JNum), (some nx : JNum)).1 &&
        c.2 == ((some ny : JNum), (some nx : JNum)).2)
      ((some q.1 : JNum), some q.2)) = true ↔ q = (ny, nx) := by
  simp only [Bool.and_eq_true, beq_iff_eq, Option.some.injEq]
  constructor
  · rintro ⟨h1, h2⟩
    exact Prod.ext h1 h2
  · rintro rfl
    exact ⟨rfl, rfl⟩

/-- C3: for every legal move, if the new head cell coincides with a
fruit cell then the reward is `FRUIT_REWARD` (1), the first matching
fruit is removed, and a replacement fruit is spawned at a cell drawn by
the random oracle from the cells not occupied by the (moved) snake —
every unoccupied in-bounds cell is a possible spawn; if the new head
matches no fruit the reward is `NO_FRUIT_REWARD` (0) and the fruit set
is unchanged.  In both cases `done` is `false`. -/
theorem step_fruit_semantics (h w nf il : Nat) (s f : List (Int × Int)) (a : Int)
    (σ : Nat → Nat) (g : SnakeGame)
    (hgdef : g = SnakeGame.mk h w nf il (ints s) (ints f))
    (hs : s ≠ []) (hnodup : s.Nodup) (hsb : ∀ p ∈ s, PairInBounds h w p)
    (hcap : s.length < h * w) (hfcount : f.length = nf)
    (ha : a = 0 ∨ a = 1 ∨ a = 2 ∨ a = 3)
    (hbound : CellInBounds g (g.candidate a))
    (hnocol : g.candidate a ∉ (ints s).drop 1) :
    (g.step a σ).1.done = some false ∧
    ∀ ny nx : Int, g.candidate a = (some ny, some nx) →
      (((ny, nx) ∈ f →
        ∃ i : Nat, f[i]? = some (ny, nx) ∧ (∀ j, j < i → f[j]? ≠ some (ny, nx)) ∧
          (g.step a σ).1.reward = FRUIT_REWARD ∧
          (∃ py px : Int,
            (g.step a σ).2.fruitSquares_ =
              ints (f.eraseIdx i) ++ [((some py : JNum), some px)] ∧
            PairInBounds h w (py, px) ∧
            ((some py : JNum), (some px : JNum)) ∉ (g.step a σ).2.snakeSquares_) ∧
          (∀ q : Int × Int, PairInBounds h w q →
            ((some q.1 : JNum), (some q.2 : JNum)) ∉ (g.step a σ).2.snakeSquares_ →
            ∃ σ' : Nat → Nat, (g.step a σ').2.fruitSquares_ =
              ints (f.eraseIdx i) ++ [((some q.1 : JNum), some q.2)])) ∧
      ((ny, nx) ∉ f →
        (g.step a σ).1.reward = NO_FRUIT_REWARD ∧
        (g.step a σ).2.fruitSquares_ = ints f)) := by
  obtain ⟨p, t, rfl⟩ := List.exists_cons_of_ne_nil hs
  subst hgdef
  set g := SnakeGame.mk h w nf il (ints (p :: t)) (ints f) with hgdef2
  have hsq : g.snakeSquares_ = (some p.1, some p.2) :: ints t := rfl
  have hflag := flag_false_of_candidate_bounds g p.1 p.2 (ints t) a hsq ha hbound
  have hflag' : jsTruthy (g.headCalc a).1 = false := by rw [hflag]; rfl
  have hstep := step_proceeds g a σ hnocol hflag'
  have hw0 : 0 < w := by
    have h1 := (hsb p (List.mem_cons_self p t)).2.2.1
    have h2 := (hsb p (List.mem_cons_self p t)).2.2.2
    omega
  have hdone : (g.step a σ).1.done = some false := by
    rw [hstep]
    split <;> (show (g.headCalc a).1 = some false; exact hflag)
  refine ⟨hdone, ?_⟩
  intro ny nx hcand
  obtain ⟨ny', nx', b, hcand', hne', hflagb, hiffb⟩ :=
    headCalc_spec_of_head_bounds g p.1 p.2 (ints t) a hsq ha (hsb p (List.mem_cons_self p t))
  have heq1 : ny = ny' := by
    have := hcand.symm.trans hcand'
    exact Option.some.inj (congrArg Prod.fst this)
  have heq2 : nx = nx' := by
    have := hcand.symm.trans hcand'
    exact Option.some.inj (congrArg Prod.snd this)
  subst heq1
  subst heq2
  have hcne : (ny, nx) ∉ (p :: t).dropLast := by
    intro hmem
    rcases List.mem_cons.mp (List.dropLast_subset _ hmem) with he | ht
    · exact hne' ⟨congrArg Prod.fst he, congrArg Prod.snd he⟩
    · apply hnocol
      rw [hcand]
      show ((some ny : JNum), (some nx : JNum)) ∈ (ints (p :: t)).drop 1
      rw [ints_drop]
      exact mem_ints.mpr ht
  have hnodup' : ((ny, nx) :: (p :: t).dropLast).Nodup :=
    List.nodup_cons.mpr ⟨hcne, (List.dropLast_sublist _).nodup hnodup⟩
  have hsb' : ∀ q ∈ (ny, nx) :: (p :: t).dropLast, PairInBounds h w q := by
    intro q hq
    rcases List.mem_cons.mp hq with rfl | hq
    · exact (cellInBounds_ints_iff g (ny, nx)).mp (by rwa [hcand] at hbound)
    · exact hsb q (List.dropLast_subset _ hq)
  have hsnakeconv : g.candidate a :: g.snakeSquares_.dropLast =
      ints ((ny, nx) :: (p :: t).dropLast) := by
    rw [hcand]
    show ((some ny : JNum), (some nx : JNum)) :: (ints (p :: t)).dropLast = _
    rw [ints_dropLast]
    rfl
  have hsnake : (g.step a σ).2.snakeSquares_ = ints ((ny, nx) :: (p :: t).dropLast) := by
    rw [hstep]
    split <;> exact hsnakeconv
  have hpred : ∀ q : Int × Int,
      ((fun c : Cell => c.1 == (g.candidate a).1 && c.2 == (g.candidate a).2)
        (((some q.1 : JNum), some q.2) : Cell)) = true ↔ q = (ny, nx) := by
    intro q
    rw [hcand]
    exact predMatch_ints ny nx q
  constructor
  · -- the eating case
    intro hmem
    cases hfi : g.fruitSquares_.findIdx?
        (fun c => c.1 == (g.candidate a).1 && c.2 == (g.candidate a).2) with
    | none =>
      exfalso
      have hall := List.findIdx?_eq_none_iff.mp hfi
      have hfalse := hall (((some (ny, nx).1 : JNum), some (ny, nx).2) : Cell)
        (mem_ints.mpr hmem)
      have htrue := (hpred (ny, nx)).mpr rfl
      simp only [] at htrue
      rw [hfalse] at htrue
      exact absurd htrue (by simp)
    | some i =>
      obtain ⟨hi, hptrue, hmin⟩ := List.findIdx?_eq_some_iff_getElem.mp hfi
      have hlf : g.fruitSquares_.length = f.length := by
        show (ints f).length = f.length
        simp [ints]
      have hif : i < f.length := by omega
      have hgeti : (ints f).get ⟨i, by simpa [ints] using hif⟩ =
          (((some (f.get ⟨i, hif⟩).1 : JNum), some (f.get ⟨i, hif⟩).2) : Cell) := by
        simp [ints]
      have hptrue' : ((fun c : Cell => c.1 == (g.candidate a).1 && c.2 == (g.candidate a).2)
          ((ints f).get ⟨i, by simpa [ints] using hif⟩)) = true := hptrue
      rw [hgeti] at hptrue'
      have hfieq : f.get ⟨i, hif⟩ = (ny, nx) := (hpred (f.get ⟨i, hif⟩)).mp hptrue'
      refine ⟨i, ?_, ?_, ?_, ?_, ?_⟩
      · have hsome : f[i]? = some (f.get ⟨i, hif⟩) := List.getElem?_eq_getElem hif
        rw [hsome, hfieq]
      · intro j hj hje
        have hjf : j < f.length := by omega
        have hsomej : f[j]? = some (f.get ⟨j, hjf⟩) := List.getElem?_eq_getElem hjf
        rw [hsomej] at hje
        have hjne := hmin j (by omega)
        apply hjne
        show ((fun c : Cell => c.1 == (g.candidate a).1 && c.2 == (g.candidate a).2)
          ((ints f).get ⟨j, by simpa [ints] using hjf⟩)) = true
        have hgetj : (ints f).get ⟨j, by simpa [ints] using hjf⟩ =
            (((some (f.get ⟨j, hjf⟩).1 : JNum), some (f.get ⟨j, hjf⟩).2) : Cell) := by
          simp [ints]
        rw [hgetj]
        exact (hpred (f.get ⟨j, hjf⟩)).mpr (Option.some.inj hje)
      · rw [hstep]
        simp only [hfi]
      · -- the replacement fruit for the given stream
        have hfru : (g.step a σ).2.fruitSquares_ = SnakeGame.makeFruits_
            { g with snakeSquares_ := g.candidate a :: g.snakeSquares_.dropLast,
                     fruitSquares_ := g.fruitSquares_.eraseIdx i } σ := by
          rw [hstep]
          simp only [hfi]
        have hg1s : ({ g with
              snakeSquares_ := g.candidate a :: g.snakeSquares_.dropLast,
              fruitSquares_ := g.fruitSquares_.eraseIdx i } : SnakeGame).snakeSquares_ =
            ints ((ny, nx) :: (p :: t).dropLast) := hsnakeconv
        have hlenedi : (g.fruitSquares_.eraseIdx i).length = f.length - 1 := by
          rw [List.length_eraseIdx]
          rw [hlf]
          rw [if_pos hif]
        have hnf1 : 1 ≤ f.length := by omega
        obtain ⟨new, hnew, hnewlen, hnewP⟩ := makeFruits_spec
          ({ g with
              snakeSquares_ := g.candidate a :: g.snakeSquares_.dropLast,
              fruitSquares_ := g.fruitSquares_.eraseIdx i } : SnakeGame)
          ((ny, nx) :: (p :: t).dropLast) σ hg1s hw0 hnodup' hsb'
          (by show ((nf : Int) - ((g.fruitSquares_.eraseIdx i).length : Int)).toNat +
                ((ny, nx) :: (p :: t).dropLast).length ≤ h * w
              rw [hlenedi]
              have hl1 : ((ny, nx) :: (p :: t).dropLast).length = (p :: t).length := by simp
              rw [hl1]
              omega)
        have hdef1 : ((nf : Int) - ((g.fruitSquares_.eraseIdx i).length : Int)).toNat = 1 := by
          rw [hlenedi]
          omega
        rw [hdef1] at hnewlen
        obtain ⟨q0, rfl⟩ := List.length_eq_one.mp hnewlen
        refine ⟨q0.1, q0.2, ?_, (hnewP q0 (List.mem_cons_self q0 [])).1, ?_⟩
        · rw [hfru, hnew]
          show g.fruitSquares_.eraseIdx i ++ _ = _
          rw [show g.fruitSquares_.eraseIdx i = (ints f).eraseIdx i from rfl,
            ints_eraseIdx]
          rfl
        · rw [hsnake]
          intro hc
          exact (hnewP q0 (List.mem_cons_self q0 [])).2 (mem_ints.mp hc)
      · -- every unoccupied cell is a possible spawn
        intro q hqb hqs
        rw [hsnake] at hqs
        have hqs' : q ∉ (ny, nx) :: (p :: t).dropLast := fun hc => hqs (mem_ints.mpr hc)
        have hlenedi : (g.fruitSquares_.eraseIdx i).length = f.length - 1 := by
          rw [List.length_eraseIdx]
          show (if i < (ints f).length then (ints f).length - 1 else (ints f).length) = _
          rw [if_pos (by simpa [ints] using hif)]
          simp [ints]
        have hnf1 : 1 ≤ f.length := by omega
        have hg1s : ({ g with
              snakeSquares_ := g.candidate a :: g.snakeSquares_.dropLast,
              fruitSquares_ := g.fruitSquares_.eraseIdx i } : SnakeGame).snakeSquares_ =
            ints ((ny, nx) :: (p :: t).dropLast) := hsnakeconv
        obtain ⟨σ'', hσ''⟩ := makeFruits_surj
          ({ g with
              snakeSquares_ := g.candidate a :: g.snakeSquares_.dropLast,
              fruitSquares_ := g.fruitSquares_.eraseIdx i } : SnakeGame)
          ((ny, nx) :: (p :: t).dropLast) q oracle0 hg1s hw0 hnodup' hsb'
          (by show (nf : Int) - ((g.fruitSquares_.eraseIdx i).length : Int) = 1
              rw [hlenedi]
              rw [hfcount] at hnf1 ⊢
              omega)
          hqb hqs'
        refine ⟨σ'', ?_⟩
        have hstep'' := step_proceeds g a σ'' hnocol hflag'
        rw [hstep'']
        simp only [hfi]
        show SnakeGame.makeFruits_ _ σ'' = _
        rw [hσ'']
        show g.fruitSquares_.eraseIdx i ++ _ = _
        rw [show g.fruitSquares_.eraseIdx i = (ints f).eraseIdx i from rfl, ints_eraseIdx]
  · -- the no-fruit case
    intro hnmem
    cases hfi : g.fruitSquares_.findIdx?
        (fun c => c.1 == (g.candidate a).1 && c.2 == (g.candidate a).2) with
    | some i =>
      exfalso
      obtain ⟨hi, hptrue, _⟩ := List.findIdx?_eq_some_iff_getElem.mp hfi
      have hif : i < f.length := by
        have : g.fruitSquares_.length = f.length := by simp [ints]
        omega
      have hgeti : (ints f).get ⟨i, by simpa [ints] using hif⟩ =
          (((some (f.get ⟨i, hif⟩).1 : JNum), some (f.get ⟨i, hif⟩).2) : Cell) := by
        simp [ints]
      have hptrue' : ((fun c : Cell => c.1 == (g.candidate a).1 && c.2 == (g.candidate a).2)
          ((ints f).get ⟨i, by simpa [ints] using hif⟩)) = true := hptrue
      rw [hgeti] at hptrue'
      have heq := (hpred (f.get ⟨i, hif⟩)).mp hptrue'
      exact hnmem (heq ▸ List.get_mem f i hif)
    | none =>
      constructor
      · rw [hstep]
        simp only [hfi]
      · rw [hstep]
        simp only [hfi]

/-- C3 witness: eating the single fruit of a 3×3 board with a RIGHT
move. -/
theorem step_fruit_semantics_witness :
    ((SnakeGame.mk 3 3 1 1 (ints [(0, 0)]) (ints [(0, 1)])).step 2 oracle0).1.done =
      some false ∧
    ((SnakeGame.mk 3 3 1 1 (ints [(0, 0)]) (ints [(0, 1)])).step 2 oracle0).1.reward =
      FRUIT_REWARD := by
  have hmain := step_fruit_semantics 3 3 1 1 [(0, 0)] [(0, 1)] 2 oracle0
    (SnakeGame.mk 3 3 1 1 (ints [(0, 0)]) (ints [(0, 1)])) rfl (by decide) (by decide)
    (by decide) (by decide) (by decide) (by decide) (by decide) (by decide)
  refine ⟨hmain.1, ?_⟩
  obtain ⟨i, _, _, hrew, _, _⟩ := (hmain.2 0 1 (by decide)).1 (by decide)
  exact hrew

/-! ## Preservation of the single-fruit state invariant -/

lemma step_preserves_good (g : SnakeGame) (a : Int) (σ' : Nat → Nat)
    (hact : a = 0 ∨ a = 1 ∨ a = 2 ∨ a = 3)
    (hdone : (g.step a σ').1.done = some false)
    (hnf : g.numFruits_ = 1)
    (hcap : g.numFruits_ + g.initLen_ ≤ g.height_ * g.width_)
    (hinv : ∃ s fr : List (Int × Int),
      g.snakeSquares_ = ints s ∧ g.fruitSquares_ = ints fr ∧ s ≠ [] ∧ s.Nodup ∧
      s.length = g.initLen_ ∧ (∀ p ∈ s, PairInBounds g.height_ g.width_ p) ∧ fr.Nodup ∧
      fr.length = g.numFruits_ ∧ ∀ p ∈ fr, PairInBounds g.height_ g.width_ p ∧ p ∉ s) :
    ∃ s fr : List (Int × Int),
      (g.step a σ').2.snakeSquares_ = ints s ∧ (g.step a σ').2.fruitSquares_ = ints fr ∧
      s ≠ [] ∧ s.Nodup ∧ s.length = g.initLen_ ∧
      (∀ p ∈ s, PairInBounds g.height_ g.width_ p) ∧ fr.Nodup ∧
      fr.length = g.numFruits_ ∧ ∀ p ∈ fr, PairInBounds g.height_ g.width_ p ∧ p ∉ s := by
  obtain ⟨s, fr, hsg, hfg, hsne, hsnd, hslen, hsb, hfnd, hflen, hfP⟩ := hinv
  obtain ⟨p, t, rfl⟩ := List.exists_cons_of_ne_nil hsne
  have hsq : g.snakeSquares_ = (some p.1, some p.2) :: ints t := by
    rw [hsg]
    rfl
  obtain ⟨hflag, hb⟩ := step_done_false_elim g a σ' hdone
  have hflag' : jsTruthy (g.headCalc a).1 = false := by rw [hflag]; rfl
  have hstep := step_proceeds g a σ' hb hflag'
  have hw0 : 0 < g.width_ := by
    have h1 := (hsb p (List.mem_cons_self p t)).2.2.1
    have h2 := (hsb p (List.mem_cons_self p t)).2.2.2
    omega
  obtain ⟨ny, nx, b, hcand, hne, hflagb, hiffb⟩ :=
    headCalc_spec_of_head_bounds g p.1 p.2 (ints t) a hsq hact (hsb p (List.mem_cons_self p t))
  have hbf : b = false := Option.some.inj (hflagb.symm.trans hflag)
  have hcb : PairInBounds g.height_ g.width_ (ny, nx) := hiffb.mp hbf
  have hb' : (ny, nx) ∉ t := by
    intro ht
    apply hb
    rw [hcand]
    show ((some ny : JNum), (some nx : JNum)) ∈ g.snakeSquares_.drop 1
    rw [hsg, ints_drop]
    exact mem_ints.mpr ht
  have hcne : (ny, nx) ∉ (p :: t).dropLast := by
    intro hmem
    rcases List.mem_cons.mp (List.dropLast_subset _ hmem) with he | ht
    · exact hne ⟨congrArg Prod.fst he, congrArg Prod.snd he⟩
    · exact hb' ht
  have hnodup' : ((ny, nx) :: (p :: t).dropLast).Nodup :=
    List.nodup_cons.mpr ⟨hcne, (List.dropLast_sublist _).nodup hsnd⟩
  have hsb' : ∀ q ∈ (ny, nx) :: (p :: t).dropLast, PairInBounds g.height_ g.width_ q := by
    intro q hq
    rcases List.mem_cons.mp hq with rfl | hq
    · exact hcb
    · exact hsb q (List.dropLast_subset _ hq)
  have hslen' : ((ny, nx) :: (p :: t).dropLast).length = g.initLen_ := by
    rw [← hslen]
    simp
  have hsnakeconv : g.candidate a :: g.snakeSquares_.dropLast =
      ints ((ny, nx) :: (p :: t).dropLast) := by
    rw [hcand, hsg]
    show ((some ny : JNum), (some nx : JNum)) :: (ints (p :: t)).dropLast = _
    rw [ints_dropLast]
    rfl
  have hsnake : (g.step a σ').2.snakeSquares_ = ints ((ny, nx) :: (p :: t).dropLast) := by
    rw [hstep]
    split <;> exact hsnakeconv
  cases hfi : g.fruitSquares_.findIdx?
      (fun c => c.1 == (g.candidate a).1 && c.2 == (g.candidate a).2) with
  | none =>
    have hfru : (g.step a σ').2.fruitSquares_ = ints fr := by
      rw [hstep]
      simp only [hfi]
      exact hfg
    refine ⟨(ny, nx) :: (p :: t).dropLast, fr, hsnake, hfru, by simp, hnodup', hslen',
      hsb', hfnd, hflen, ?_⟩
    intro q hq
    refine ⟨(hfP q hq).1, ?_⟩
    intro hqmem
    rcases List.mem_cons.mp hqmem with he | hqmem
    · -- q is the candidate: then the fruit would have been found
      have hall := List.findIdx?_eq_none_iff.mp hfi
      have hfalse := hall (((some q.1 : JNum), some q.2) : Cell)
        (by rw [hfg]; exact mem_ints.mpr hq)
      have htrue : ((fun c : Cell => c.1 == (g.candidate a).1 && c.2 == (g.candidate a).2)
          (((some q.1 : JNum), some q.2) : Cell)) = true := by
        rw [hcand]
        exact (predMatch_ints ny nx q).mpr he
      simp only [] at htrue hfalse
      rw [hfalse] at htrue
      exact absurd htrue (by simp)
    · exact (hfP q hq).2 (List.dropLast_subset _ hqmem)
  | some i =>
    -- numFruits = 1, so the fruit list is a singleton and the eaten one is at index 0
    have hfr1 : fr.length = 1 := by rw [hflen, hnf]
    obtain ⟨q1, rfl⟩ := List.length_eq_one.mp hfr1
    have hi1 : i < ([q1] : List (Int × Int)).length := by
      obtain ⟨hi, _, _⟩ := List.findIdx?_eq_some_iff_getElem.mp hfi
      have : g.fruitSquares_.length = 1 := by rw [hfg]; simp [ints]
      omega
    have hi0 : i = 0 := by
      simp only [List.length_singleton] at hi1
      omega
    subst hi0
    have heraseq : g.fruitSquares_.eraseIdx 0 = [] := by
      rw [hfg]
      rfl
    have hfru : (g.step a σ').2.fruitSquares_ = SnakeGame.makeFruits_
        { g with snakeSquares_ := g.candidate a :: g.snakeSquares_.dropLast,
                 fruitSquares_ := g.fruitSquares_.eraseIdx 0 } σ' := by
      rw [hstep]
      simp only [hfi]
    have hg1s : ({ g with
        snakeSquares_ := g.candidate a :: g.snakeSquares_.dropLast,
        fruitSquares_ := g.fruitSquares_.eraseIdx 0 } : SnakeGame).snakeSquares_ =
        ints ((ny, nx) :: (p :: t).dropLast) := hsnakeconv
    obtain ⟨new, hnew, hnewlen, hnewP⟩ := makeFruits_spec
      ({ g with
          snakeSquares_ := g.candidate a :: g.snakeSquares_.dropLast,
          fruitSquares_ := g.fruitSquares_.eraseIdx 0 } : SnakeGame)
      ((ny, nx) :: (p :: t).dropLast) σ' hg1s hw0 hnodup' hsb'
      (by show ((g.numFruits_ : Int) - ((g.fruitSquares_.eraseIdx 0).length : Int)).toNat +
            ((ny, nx) :: (p :: t).dropLast).length ≤ g.height_ * g.width_
          rw [heraseq]
          have hl1 : ((ny, nx) :: (p :: t).dropLast).length = (p :: t).length := by simp
          rw [hl1]
          have hl2 : (p :: t).length = g.initLen_ := hslen
          simp only [List.length_nil, Nat.cast_zero, sub_zero, Int.toNat_natCast]
          omega)
    have hdef1 : ((g.numFruits_ : Int) - ((g.fruitSquares_.eraseIdx 0).length : Int)).toNat =
        1 := by
      rw [heraseq, hnf]
      decide
    rw [hdef1] at hnewlen
    obtain ⟨q0, rfl⟩ := List.length_eq_one.mp hnewlen
    refine ⟨(ny, nx) :: (p :: t).dropLast, [q0], hsnake, ?_, by simp, hnodup', hslen',
      hsb', List.nodup_singleton q0, by rw [hnf]; rfl, ?_⟩
    · rw [hfru, hnew, heraseq]
      rfl
    · intro q hq
      rw [List.mem_singleton] at hq
      subst hq
      exact ⟨(hnewP q (List.mem_cons_self q [])).1,
        (hnewP q (List.mem_cons_self q [])).2⟩

/-- C4 (amended): in every state reachable from construction by legal
steps, provided `numFruits = 1`, the snake fits in a row
(`initLen ≤ width`) and the board has room
(`numFruits + initLen ≤ height * width`): all snake and fruit
coordinates lie in `[0, height) × [0, width)`, the snake cells are
pairwise distinct, the fruit cells are pairwise distinct and disjoint
from the snake, and the fruit count is exactly `numFruits`.  For
`numFruits ≥ 2` the distinctness and disjointness parts are false: a
respawned fruit can coincide with an uneaten one (see the
counterexample), because `makeFruits_` removes only the snake squares
from its candidate cells. -/
theorem reachable_invariant (g : SnakeGame) (hr : Reachable g)
    (hnf : g.numFruits_ = 1) (hilw : g.initLen_ ≤ g.width_)
    (hcap : g.numFruits_ + g.initLen_ ≤ g.height_ * g.width_) :
    ∃ s fr : List (Int × Int),
      g.snakeSquares_ = ints s ∧ g.fruitSquares_ = ints fr ∧
      s ≠ [] ∧ s.Nodup ∧ s.length = g.initLen_ ∧
      (∀ p ∈ s, PairInBounds g.height_ g.width_ p) ∧
      fr.Nodup ∧ fr.length = g.numFruits_ ∧
      (∀ p ∈ fr, PairInBounds g.height_ g.width_ p ∧ p ∉ s) := by
  revert hnf hilw hcap
  induction hr with
  | init args σ₁ σ₂ g0 hok =>
    intro hnf hilw hcap
    obtain ⟨hh, hw, hpnf, hpil, _, _, _, _, hsn, hfr⟩ := construct_ok_elim args σ₁ σ₂ g0 hok
    obtain ⟨y, x, hini, hy1, hy2, hx1, hx2⟩ :=
      initializeSnake_spec g0.height_ g0.width_ g0.initLen_ σ₁ hh hpil hilw
    obtain ⟨hplen, hpnd, hpb⟩ :=
      snakePairs_props g0.height_ g0.width_ g0.initLen_ y x hy1 hy2 hx1 hx2
    have hg0s : (⟨g0.height_, g0.width_, g0.numFruits_, g0.initLen_,
        initializeSnake_ g0.height_ g0.width_ g0.initLen_ σ₁, []⟩ : SnakeGame).snakeSquares_ =
        ints ((List.range g0.initLen_).map (fun (i : Nat) => (y, x - (i : Int)))) := hini
    obtain ⟨fr, hfr', hfrlen, hfrP⟩ := makeFruits_spec
      (⟨g0.height_, g0.width_, g0.numFruits_, g0.initLen_,
        initializeSnake_ g0.height_ g0.width_ g0.initLen_ σ₁, []⟩ : SnakeGame)
      ((List.range g0.initLen_).map (fun (i : Nat) => (y, x - (i : Int)))) σ₂
      hg0s hw hpnd hpb
      (by show ((g0.numFruits_ : Int) - (([] : List Cell).length : Int)).toNat +
            ((List.range g0.initLen_).map (fun (i : Nat) => (y, x - (i : Int)))).length ≤
            g0.height_ * g0.width_
          simp only [List.length_nil, Nat.cast_zero, sub_zero, Int.toNat_natCast,
            List.length_map, List.length_range]
          omega)
    have hfrlen1 : fr.length = 1 := by
      rw [hfrlen]
      show ((g0.numFruits_ : Int) - (([] : List Cell).length : Int)).toNat = 1
      simp only [List.length_nil, Nat.cast_zero, sub_zero, Int.toNat_natCast]
      exact hnf
    have hfrnd : fr.Nodup := by
      obtain ⟨qf, hq⟩ := List.length_eq_one.mp hfrlen1
      rw [hq]
      exact List.nodup_singleton qf
    refine ⟨(List.range g0.initLen_).map (fun (i : Nat) => (y, x - (i : Int))), fr,
      by rw [hsn, hini], ?_, ?_, hpnd, hplen, hpb, hfrnd, by rw [hfrlen1, hnf], hfrP⟩
    · rw [hfr, hfr']
      show ([] : List Cell) ++ ints fr = ints fr
      simp
    · intro hc
      have := congrArg List.length hc
      simp only [List.length_map, List.length_range, List.length_nil] at this
      omega
  | step g0 a σ0 hr0 hact hdone ih =>
    intro hnf hilw hcap
    obtain ⟨e1, e2, e3, e4⟩ := step_preserves_config g0 a σ0
    rw [e3] at hnf
    rw [e4, e2] at hilw
    rw [e3, e4, e1, e2] at hcap
    rw [e1, e2, e3, e4]
    exact step_preserves_good g0 a σ0 hact hdone hnf hcap (ih hnf hilw hcap)

/-- C4 witness: the invariant at the state constructed from the 2×2,
one-fruit, length-1 configuration. -/
theorem reachable_invariant_witness :
    (SnakeGame.mk 2 2 1 1 (ints [(0, 0)]) (ints [(0, 1)])).numFruits_ = 1 ∧
    (SnakeGame.mk 2 2 1 1 (ints [(0, 0)]) (ints [(0, 1)])).initLen_ ≤
      (SnakeGame.mk 2 2 1 1 (ints [(0, 0)]) (ints [(0, 1)])).width_ ∧
    (∃ s fr : List (Int × Int),
      (SnakeGame.mk 2 2 1 1 (ints [(0, 0)]) (ints [(0, 1)])).snakeSquares_ = ints s ∧
      (SnakeGame.mk 2 2 1 1 (ints [(0, 0)]) (ints [(0, 1)])).fruitSquares_ = ints fr ∧
      s ≠ [] ∧ s.Nodup ∧
      s.length = (SnakeGame.mk 2 2 1 1 (ints [(0, 0)]) (ints [(0, 1)])).initLen_ ∧
      (∀ p ∈ s, PairInBounds 2 2 p) ∧
      fr.Nodup ∧ fr.length = (SnakeGame.mk 2 2 1 1 (ints [(0, 0)]) (ints [(0, 1)])).numFruits_ ∧
      (∀ p ∈ fr, PairInBounds 2 2 p ∧ p ∉ s)) :=
  ⟨rfl, by decide,
    reachable_invariant (SnakeGame.mk 2 2 1 1 (ints [(0, 0)]) (ints [(0, 1)]))
      (Reachable.init (some ⟨some (2 : ℚ), some (2 : ℚ), some (1 : ℚ), some (1 : ℚ)⟩)
        oracle0 oracle0 _ (by decide))
      rfl (by decide) (by decide)⟩

/-- C4 counterexample: with `numFruits = 2` on a 2×2 board, the state
constructed by `construct` followed by one legal RIGHT step (which eats
the fruit at `(0,1)`) has fruit squares `[(1,0), (1,0)]` — the
respawned fruit duplicates the uneaten one, so the fruit cells of a
reachable state are not pairwise distinct when `numFruits ≥ 2`. -/
theorem reachable_duplicate_fruits :
    ((SnakeGame.construct (some ⟨some (2 : ℚ), some (2 : ℚ), some (2 : ℚ), some (1 : ℚ)⟩)
        oracle0 oracle0).2.map
      (fun g => ((g.step 2 oracle1).1.done, (g.step 2 oracle1).2.fruitSquares_))) =
      Except.ok (some false, ints [(1, 0), (1, 0)]) ∧
    ¬ (ints [(1, 0), (1, 0)]).Nodup := by
  constructor
  · decide
  · decide
